import Mathlib

/-!
Shallow embedding of the Klondike Solitaire rule engine of this repository
(`SolitaireGame` in the Tkinter implementation, `src/unnamed/part_000`).

Conventions of the embedding:
* Python lists become Lean `List`s with the same orientation: the *end* of the
  list is the top of a pile (`append` = `list.append`, `pop` = remove the last
  element, `pile[-1]` = `List.getLast?`).
* `random.shuffle` is modelled by quantifying over an arbitrary permutation of
  the freshly built deck: the shuffled deck is a parameter of the deal.
* Python `IndexError` (indexing `self.tableau[i]` / `self.foundations[i]` out
  of range) is modelled by an `Option` result: `none` is the raised exception.
  Every such raise in the source happens before any mutation.
* The unused `selected` field of the Python class (the GUI keeps its own
  selection state) is omitted; the state is stock, waste, foundations,
  tableau and the move counter.
-/

/-- The four suits (`class Suit(Enum)` in the source). -/
inductive Suit : Type
  | spade
  | heart
  | diamond
  | club
deriving DecidableEq

/-- The thirteen ranks (the `RANKS` list of the source). -/
inductive Rank : Type
  | ace
  | two
  | three
  | four
  | five
  | six
  | seven
  | eight
  | nine
  | ten
  | jack
  | queen
  | king
deriving DecidableEq

/-- `RANK_VALUES`: A=1, 2=2, ..., J=11, Q=12, K=13. -/
def rankValue : Rank → Nat
  | .ace => 1
  | .two => 2
  | .three => 3
  | .four => 4
  | .five => 5
  | .six => 6
  | .seven => 7
  | .eight => 8
  | .nine => 9
  | .ten => 10
  | .jack => 11
  | .queen => 12
  | .king => 13

/-- A card: immutable identity (suit, rank) plus the mutable `face_up` flag
(`class Card` of the source; `face_up` starts `False` in the constructor). -/
structure Card : Type where
  suit : Suit
  rank : Rank
  face_up : Bool
deriving DecidableEq

/-- `Card.color`: red (`true`) for hearts and diamonds, black (`false`)
otherwise. -/
def Card.color (c : Card) : Bool :=
  match c.suit with
  | .heart => true
  | .diamond => true
  | _ => false

/-- The identity of a card, forgetting its orientation flag. -/
def cardId (c : Card) : Suit × Rank := (c.suit, c.rank)

/-- The game state (`class SolitaireGame`): stock, waste, four foundations,
seven tableau piles and the move counter. -/
structure SolitaireGame : Type where
  stock : List Card
  waste : List Card
  foundations : List (List Card)
  tableau : List (List Card)
  moves : Nat
deriving DecidableEq

/-- Source of a move: the Python code passes either the string `'waste'` or a
tableau index (an `int`, tested with `from_pile in range(7)`). -/
inductive Src : Type
  | waste
  | tableau (i : Nat)
deriving DecidableEq

/-- The reveal step shared by all moves (`if pile and not pile[-1].face_up:
pile[-1].face_up = True`): if the pile is non-empty and its top card is
face-down, the top card is turned face-up. -/
def flipTop (pile : List Card) : List Card :=
  match pile.getLast? with
  | none => pile
  | some c => if c.face_up then pile else pile.dropLast ++ [{ c with face_up := true }]

/-- `SolitaireGame.can_place_on_tableau`: an empty tableau pile accepts only a
King; a non-empty pile accepts a card exactly one rank below its top card and
of the opposite color. -/
def can_place_on_tableau (card : Card) (pile : List Card) : Bool :=
  match pile.getLast? with
  | none => decide (card.rank = Rank.king)
  | some top => decide (rankValue card.rank = rankValue top.rank - 1 ∧ card.color ≠ top.color)

/-- `SolitaireGame.can_move_to_foundation`: reads `self.foundations[idx]`
(`none` = `IndexError`); an empty foundation accepts only an Ace; a non-empty
one accepts the same-suit card exactly one rank above its top card. -/
def SolitaireGame.can_move_to_foundation (g : SolitaireGame) (card : Card)
    (foundation_idx : Nat) : Option Bool :=
  match g.foundations.get? foundation_idx with
  | none => none
  | some foundation =>
    match foundation.getLast? with
    | none => some (decide (card.rank = Rank.ace))
    | some top =>
      some (decide (card.suit = top.suit ∧ rankValue card.rank = rankValue top.rank + 1))

/-- `SolitaireGame.draw_from_stock`. Empty stock: the recycle loop pops every
waste card (top first), turns it face-down and appends it to the stock, so the
stock becomes the reverse of the waste, all face-down, and the move counter is
untouched. Non-empty stock: pop the top stock card, turn it face-up, append it
to the waste and count one move. -/
def SolitaireGame.draw_from_stock (g : SolitaireGame) : SolitaireGame :=
  match g.stock.getLast? with
  | none =>
    { g with
      stock := g.waste.reverse.map (fun c => { c with face_up := false }),
      waste := [] }
  | some card =>
    { g with
      stock := g.stock.dropLast,
      waste := g.waste ++ [{ card with face_up := true }],
      moves := g.moves + 1 }

/-- `SolitaireGame.move_to_tableau`. From the waste: move the top waste card if
the target accepts it. From tableau pile `i` (only when `i` is `in range(7)`):
if `card_idx` addresses a face-up card and the target accepts `pile[card_idx]`,
extend the target with the slice `pile[card_idx:]`, delete that slice from the
source, count one move and reveal the new source top. The target lookup
`self.tableau[to_pile_idx]` can raise (`none`); failures return
`some (false, g)` with the state untouched. -/
def SolitaireGame.move_to_tableau (g : SolitaireGame) (from_pile : Src)
    (to_pile_idx : Nat) (card_idx : Nat) : Option (Bool × SolitaireGame) :=
  match from_pile with
  | Src.waste =>
    match g.waste.getLast? with
    | none => some (false, g)
    | some card =>
      match g.tableau.get? to_pile_idx with
      | none => none
      | some target =>
        if can_place_on_tableau card target then
          let w1 := g.waste.dropLast
          some (true,
            { g with
              tableau := g.tableau.set to_pile_idx (target ++ [card]),
              waste := flipTop w1,
              moves := g.moves + 1 })
        else some (false, g)
  | Src.tableau from_idx =>
    if from_idx < 7 then
      match g.tableau.get? from_idx with
      | none => none
      | some pile =>
        if h : card_idx < pile.length then
          if (pile.get ⟨card_idx, h⟩).face_up then
            let cards_to_move := pile.drop card_idx
            match g.tableau.get? to_pile_idx with
            | none => none
            | some target =>
              if can_place_on_tableau (pile.get ⟨card_idx, h⟩) target then
                let t1 := g.tableau.set to_pile_idx (target ++ cards_to_move)
                let newSrc := (t1.getD from_idx []).take card_idx
                some (true,
                  { g with
                    tableau := t1.set from_idx (flipTop newSrc),
                    moves := g.moves + 1 })
              else some (false, g)
          else some (false, g)
        else some (false, g)
    else some (false, g)

/-- `SolitaireGame.move_to_foundation`. The candidate card is the waste top or
the face-up top of tableau pile `i` (`i in range(7)`); when the foundation
accepts it, the card is popped from its source, appended to the foundation, one
move is counted, and (for a tableau source) the new source top is revealed. -/
def SolitaireGame.move_to_foundation (g : SolitaireGame) (from_pile : Src)
    (foundation_idx : Nat) : Option (Bool × SolitaireGame) :=
  match from_pile with
  | Src.waste =>
    match g.waste.getLast? with
    | none => some (false, g)
    | some wtop =>
      match g.can_move_to_foundation wtop foundation_idx with
      | none => none
      | some false => some (false, g)
      | some true =>
        some (true,
          { g with
            waste := g.waste.dropLast,
            foundations :=
              g.foundations.set foundation_idx ((g.foundations.getD foundation_idx []) ++ [wtop]),
            moves := g.moves + 1 })
  | Src.tableau i =>
    if i < 7 then
      match g.tableau.get? i with
      | none => none
      | some pile =>
        match pile.getLast? with
        | none => some (false, g)
        | some ptop =>
          if ptop.face_up then
            match g.can_move_to_foundation ptop foundation_idx with
            | none => none
            | some false => some (false, g)
            | some true =>
              some (true,
                { g with
                  tableau := g.tableau.set i (flipTop pile.dropLast),
                  foundations :=
                    g.foundations.set foundation_idx
                      ((g.foundations.getD foundation_idx []) ++ [ptop]),
                  moves := g.moves + 1 })
          else some (false, g)
    else some (false, g)

/-- The manual flip action (`SolitaireGUI.select_tableau_card`, the branch
`if not pile[-1].face_up: pile[-1].face_up = True`): clicking a tableau pile
whose top card is face-down turns that card face-up; it counts no move. The
GUI only produces indices `0..6`; an out-of-range index leaves the state as
is. -/
def SolitaireGame.flip_tableau_top (g : SolitaireGame) (i : Nat) : SolitaireGame :=
  match g.tableau.get? i with
  | none => g
  | some pile => { g with tableau := g.tableau.set i (flipTop pile) }

/-- `SolitaireGame.is_won`: every foundation pile holds 13 cards. -/
def SolitaireGame.is_won (g : SolitaireGame) : Bool :=
  g.foundations.all (fun f => f.length == 13)

/-- The fresh 52-card deck built by `initialize_deck` before shuffling: for
every suit, a card of every rank, all face-down. -/
def fullDeck : List Card :=
  [Suit.spade, Suit.heart, Suit.diamond, Suit.club].flatMap fun s =>
    [Rank.ace, Rank.two, Rank.three, Rank.four, Rank.five, Rank.six, Rank.seven,
     Rank.eight, Rank.nine, Rank.ten, Rank.jack, Rank.queen, Rank.king].map fun r =>
      { suit := s, rank := r, face_up := false }

/-- One column of the deal: `for j in range(i+1): card = deck.pop(); ...`.
`n` cards are popped from the end of the deck; the last one dealt (`j == i`,
first argument `1`) is turned face-up. The `none` branch (popping an empty
deck would raise in Python) never runs on a 52-card deck. -/
def dealColumn : Nat → List Card → List Card × List Card
  | 0, deck => ([], deck)
  | n + 1, deck =>
    match deck.getLast? with
    | none => ([], deck)
    | some card =>
      let card2 := if n = 0 then { card with face_up := true } else card
      let p := dealColumn n deck.dropLast
      (card2 :: p.1, p.2)

/-- The full deal `for i in range(7)`: `k` remaining columns of sizes
`size, size+1, ...` (called with `k = 7`, `size = 1`). -/
def dealTableau : Nat → Nat → List Card → List (List Card) × List Card
  | 0, _, deck => ([], deck)
  | k + 1, size, deck =>
    let p := dealColumn size deck
    let q := dealTableau k (size + 1) p.2
    (p.1 :: q.1, q.2)

/-- `SolitaireGame.initialize_deck`, with `random.shuffle` modelled by the
`shuffled` parameter: deal seven columns of 1..7 cards from the shuffled deck
and put the remaining 24 cards in the stock. -/
def SolitaireGame.initialize_deck (shuffled : List Card) : SolitaireGame :=
  { stock := (dealTableau 7 1 shuffled).2,
    waste := [],
    foundations := [[], [], [], []],
    tableau := (dealTableau 7 1 shuffled).1,
    moves := 0 }

/-- The engine operations the presentation layer can trigger: drawing
(including the recycle), the two move families, and the manual flip. -/
inductive Move : Type
  | draw
  | toTableau (src : Src) (tgt : Nat) (ci : Nat)
  | toFoundation (src : Src) (fi : Nat)
  | flip (i : Nat)
deriving DecidableEq

/-- One engine step. An operation that raises (`none`) mutates nothing in the
source — every `IndexError` happens before the first write — so the state after
the exceptional step is the unchanged state. -/
def applyMove (g : SolitaireGame) (m : Move) : SolitaireGame :=
  match m with
  | .draw => g.draw_from_stock
  | .toTableau s t ci =>
    match g.move_to_tableau s t ci with
    | some r => r.2
    | none => g
  | .toFoundation s fi =>
    match g.move_to_foundation s fi with
    | some r => r.2
    | none => g
  | .flip i => g.flip_tableau_top i

/-- Reachable states of one game: a fresh deal from some permutation of the
52-card deck, closed under the engine operations. -/
inductive Reachable : SolitaireGame → Prop
  | init (deck : List Card) (h : deck.Perm fullDeck) :
      Reachable (SolitaireGame.initialize_deck deck)
  | step (g : SolitaireGame) (m : Move) : Reachable g → Reachable (applyMove g m)

/-- The multiset of card identities of a list of cards. -/
def idsOf (l : List Card) : Multiset (Suit × Rank) :=
  ((l.map cardId : List (Suit × Rank)) : Multiset (Suit × Rank))

/-- The multiset of identities of the face-up cards of a list. -/
def upIdsOf (l : List Card) : Multiset (Suit × Rank) :=
  (((l.filter fun c => c.face_up).map cardId : List (Suit × Rank)) : Multiset (Suit × Rank))

/-- All card identities of a state, across stock, waste, the foundations and
the tableau piles. -/
def allCards (g : SolitaireGame) : Multiset (Suit × Rank) :=
  idsOf g.stock + idsOf g.waste + (g.foundations.map idsOf).sum + (g.tableau.map idsOf).sum

/-- The identities of the face-up cards of a state. -/
def faceUpCards (g : SolitaireGame) : Multiset (Suit × Rank) :=
  upIdsOf g.stock + upIdsOf g.waste +
    (g.foundations.map upIdsOf).sum + (g.tableau.map upIdsOf).sum

/-- The identities of the 52 cards of the standard deck. -/
def fullDeckIds : Multiset (Suit × Rank) :=
  ((fullDeck.map cardId : List (Suit × Rank)) : Multiset (Suit × Rank))

lemma idsOf_append (a b : List Card) : idsOf (a ++ b) = idsOf a + idsOf b := by
  simp [idsOf]

lemma upIdsOf_append (a b : List Card) : upIdsOf (a ++ b) = upIdsOf a + upIdsOf b := by
  simp [upIdsOf]

lemma idsOf_perm {a b : List Card} (h : a.Perm b) : idsOf a = idsOf b := by
  simp only [idsOf]
  exact Quot.sound (h.map cardId)

lemma flipTop_concat (ys : List Card) (c : Card) :
    flipTop (ys ++ [c]) =
      if c.face_up then ys ++ [c] else ys ++ [{ c with face_up := true }] := by
  unfold flipTop
  rw [List.getLast?_concat, List.dropLast_concat]

lemma flipTop_ids (l : List Card) : idsOf (flipTop l) = idsOf l := by
  rcases l.eq_nil_or_concat with rfl | ⟨ys, c, rfl⟩
  · rfl
  · rw [List.concat_eq_append, flipTop_concat]
    by_cases hc : c.face_up
    · simp [hc]
    · simp [hc, idsOf, cardId]

lemma flipTop_upIds_le (l : List Card) : upIdsOf l ≤ upIdsOf (flipTop l) := by
  rcases l.eq_nil_or_concat with rfl | ⟨ys, c, rfl⟩
  · exact le_refl _
  · rw [List.concat_eq_append, flipTop_concat]
    by_cases hc : c.face_up
    · simp [hc]
    · rw [if_neg hc, upIdsOf_append, upIdsOf_append]
      refine add_le_add_left ?_ _
      have h0 : upIdsOf [c] = 0 := by
        simp [upIdsOf, List.filter_cons, hc]
      rw [h0]
      exact zero_le _

/-- Effect of `List.set` on the summed pile measure. -/
lemma mapSum_set (m : List Card → Multiset (Suit × Rank)) :
    ∀ (ls : List (List Card)) (i : Nat) (x : List Card), i < ls.length →
      ((ls.set i x).map m).sum + m (ls.getD i []) = (ls.map m).sum + m x := by
  intro ls
  induction ls with
  | nil => intro i x h; simp at h
  | cons hd tl ih =>
    intro i x h
    cases i with
    | zero =>
      simp only [List.set, List.getD_cons_zero, List.map_cons, List.sum_cons]
      abel
    | succ j =>
      have hj : j < tl.length := by simpa using h
      simp only [List.set, List.getD_cons_succ, List.map_cons, List.sum_cons]
      calc m hd + ((tl.set j x).map m).sum + m (tl.getD j [])
          = m hd + (((tl.set j x).map m).sum + m (tl.getD j [])) := by abel
        _ = m hd + ((tl.map m).sum + m x) := by rw [ih j x hj]
        _ = m hd + (tl.map m).sum + m x := by abel

lemma getD_of_get? {ls : List (List Card)} {i : Nat} {p : List Card}
    (h : ls.get? i = some p) : ls.getD i [] = p := by
  simp [List.getD_eq_getElem?_getD, ← List.get?_eq_getElem?, h]

/-- Ordering relation along a tableau pile (earlier card first): if the earlier
card is face-up, everything above it is face-up with rank value at most its
own. The face-up suffix of every reachable tableau pile is `Pairwise tabR`. -/
def tabR (a b : Card) : Prop :=
  a.face_up = true → b.face_up = true ∧ rankValue b.rank ≤ rankValue a.rank

instance : DecidableRel tabR := fun a b => by unfold tabR; infer_instance

lemma rankValue_pos (r : Rank) : 1 ≤ rankValue r := by cases r <;> decide

lemma rankValue_le13 (r : Rank) : rankValue r ≤ 13 := by cases r <;> decide

lemma pairwise_last {pile : List Card} (hp : List.Pairwise tabR pile) {t : Card}
    (ht : pile.getLast? = some t) {a : Card} (ha : a ∈ pile) (hup : a.face_up = true) :
    t.face_up = true ∧ rankValue t.rank ≤ rankValue a.rank := by
  induction pile with
  | nil => cases ha
  | cons x xs ih =>
    rcases List.pairwise_cons.mp hp with ⟨hrel, hxs⟩
    cases xs with
    | nil =>
      simp only [List.getLast?_singleton, Option.some.injEq] at ht
      rcases List.mem_singleton.mp ha with rfl
      exact ht ▸ ⟨hup, le_refl _⟩
    | cons y ys =>
      rw [List.getLast?_cons_cons] at ht
      have htmem : t ∈ y :: ys := by
        obtain ⟨hne2, rfl⟩ := List.mem_getLast?_eq_getLast (Option.mem_def.mpr ht)
        exact List.getLast_mem hne2
      rcases List.mem_cons.mp ha with rfl | ha'
      · exact hrel t htmem hup
      · exact ih hxs ht ha'

/-- A face-up card of a `Pairwise tabR` pile can never be placed on the pile
itself: its rank value is at least the top card's, never one less. -/
lemma no_self_place {pile : List Card} (hp : List.Pairwise tabR pile) {ci : Nat}
    (h : ci < pile.length) (hup : (pile.get ⟨ci, h⟩).face_up = true) :
    can_place_on_tableau (pile.get ⟨ci, h⟩) pile = false := by
  have hmem : pile.get ⟨ci, h⟩ ∈ pile := pile.get_mem _ _
  have hne : pile ≠ [] := List.ne_nil_of_length_pos (Nat.lt_of_le_of_lt (Nat.zero_le ci) h)
  obtain ⟨t, ht⟩ := Option.isSome_iff_exists.mp (List.getLast?_isSome.mpr hne)
  have hlast := pairwise_last hp ht hmem hup
  unfold can_place_on_tableau
  rw [ht]
  apply decide_eq_false
  rintro ⟨h1, -⟩
  have := rankValue_pos t.rank
  omega

/-- Appending an accepted face-up run to a `Pairwise tabR` pile keeps the
invariant. -/
lemma pairwise_place_run {ptgt : List Card} {c0 : Card} {rest : List Card}
    (h1 : List.Pairwise tabR ptgt) (h2 : List.Pairwise tabR (c0 :: rest))
    (hc0 : c0.face_up = true) (hacc : can_place_on_tableau c0 ptgt = true) :
    List.Pairwise tabR (ptgt ++ c0 :: rest) := by
  rw [List.pairwise_append]
  refine ⟨h1, h2, ?_⟩
  intro a ha b hb haup
  have hne : ptgt ≠ [] := List.ne_nil_of_mem ha
  obtain ⟨t, ht⟩ := Option.isSome_iff_exists.mp (List.getLast?_isSome.mpr hne)
  have hlast := pairwise_last h1 ht ha haup
  unfold can_place_on_tableau at hacc
  rw [ht] at hacc
  have hcc := of_decide_eq_true hacc
  have hb2 : b.face_up = true ∧ rankValue b.rank ≤ rankValue c0.rank := by
    rcases List.mem_cons.mp hb with rfl | hb'
    · exact ⟨hc0, le_refl _⟩
    · exact (List.pairwise_cons.mp h2).1 b hb' hc0
  have := rankValue_pos t.rank
  exact ⟨hb2.1, by omega⟩

lemma idsOf_cons (x : Card) (l : List Card) : idsOf (x :: l) = idsOf [x] + idsOf l :=
  idsOf_append [x] l

lemma idsOf_single_flag (c : Card) (b : Bool) : idsOf [{ c with face_up := b }] = idsOf [c] := rfl

/-- Foundation pile shape maintained by the engine: the j-th card from the
bottom has rank value `j+1` (the pile is ranks 1..k in order). -/
def foundationAsc (p : List Card) : Prop :=
  ∀ (j : Nat) (h : j < p.length), rankValue (p.get ⟨j, h⟩).rank = j + 1

lemma foundationAsc_nil : foundationAsc [] := by
  intro j hj
  simp at hj

lemma foundationAsc_le13 {p : List Card} (hp : foundationAsc p) : p.length ≤ 13 := by
  by_contra hlen
  push_neg at hlen
  have h13 : 13 < p.length := hlen
  have hv := hp 13 h13
  have hle := rankValue_le13 (p.get ⟨13, h13⟩).rank
  omega

lemma foundationAsc_last {p : List Card} (hp : foundationAsc p) {t : Card}
    (ht : p.getLast? = some t) : rankValue t.rank = p.length := by
  obtain ⟨hne, rfl⟩ := List.mem_getLast?_eq_getLast (Option.mem_def.mpr ht)
  have hpos : 0 < p.length := List.length_pos.mpr hne
  have hlt : p.length - 1 < p.length := by omega
  rw [List.getLast_eq_get p hne, hp (p.length - 1) hlt]
  omega

lemma foundationAsc_push {f : List Card} {c : Card} (hf : foundationAsc f)
    (hc : (f = [] ∧ c.rank = Rank.ace) ∨
      ∃ t, f.getLast? = some t ∧ rankValue c.rank = rankValue t.rank + 1) :
    foundationAsc (f ++ [c]) := by
  intro j hj
  rw [List.length_append, List.length_singleton] at hj
  by_cases hlt : j < f.length
  · rw [List.get_append j hlt]
    exact hf j hlt
  · have hj' : j = f.length := by omega
    subst hj'
    have hget : (f ++ [c]).get ⟨f.length, by simp⟩ = c := by simp
    rw [hget]
    rcases hc with ⟨hfe, hr⟩ | ⟨t, ht, hv⟩
    · subst hfe
      simp [hr, rankValue]
    · have := foundationAsc_last hf ht
      omega

lemma flipTop_all_up {l : List Card} (h : ∀ c ∈ l, c.face_up = true) :
    ∀ c ∈ flipTop l, c.face_up = true := by
  rcases l.eq_nil_or_concat with rfl | ⟨ys, c, rfl⟩
  · intro x hx
    simp [flipTop] at hx
  · rw [List.concat_eq_append] at h
    rw [List.concat_eq_append, flipTop_concat]
    by_cases hc : c.face_up
    · rw [if_pos hc]
      exact h
    · rw [if_neg hc]
      intro x hx
      rcases List.mem_append.mp hx with hx | hx
      · exact h x (List.mem_append.mpr (Or.inl hx))
      · rcases List.mem_singleton.mp hx with rfl
        rfl

lemma flipTop_pairwise {l : List Card} (h : List.Pairwise tabR l) :
    List.Pairwise tabR (flipTop l) := by
  rcases l.eq_nil_or_concat with rfl | ⟨ys, c, rfl⟩
  · exact h
  · rw [List.concat_eq_append] at h
    rw [List.concat_eq_append, flipTop_concat]
    by_cases hc : c.face_up
    · rw [if_pos hc]
      exact h
    · rw [if_neg hc]
      rw [List.pairwise_append] at h ⊢
      obtain ⟨h1, -, h3⟩ := h
      refine ⟨h1, List.pairwise_singleton _ _, ?_⟩
      intro a ha b hb hup
      have hdown := h3 a ha c (List.mem_singleton.mpr rfl) hup
      rw [hdown.1] at hc
      cases hc rfl

lemma mem_dropLast_cons {x a : Card} {l : List Card} (h : x ∈ (a :: l).dropLast) :
    x = a ∨ x ∈ l.dropLast := by
  cases l with
  | nil => simp at h
  | cons b bs =>
    rw [List.dropLast_cons₂] at h
    rcases List.mem_cons.mp h with rfl | h'
    · exact Or.inl rfl
    · exact Or.inr h'

lemma pairwise_of_down_dropLast : ∀ {l : List Card},
    (∀ c ∈ l.dropLast, c.face_up = false) → List.Pairwise tabR l
  | [], _ => List.Pairwise.nil
  | [x], _ => List.pairwise_singleton _ _
  | x :: y :: ys, h => by
    have hx : x.face_up = false := h x (by rw [List.dropLast_cons₂]; exact List.mem_cons_self _ _)
    refine List.Pairwise.cons ?_ (pairwise_of_down_dropLast ?_)
    · intro b _ hup
      rw [hx] at hup
      cases hup
    · intro c hc
      exact h c (by rw [List.dropLast_cons₂]; exact List.mem_cons_of_mem _ hc)

lemma dealColumn_concat (n : Nat) (ys : List Card) (c : Card) :
    dealColumn (n + 1) (ys ++ [c]) =
      ((if n = 0 then { c with face_up := true } else c) :: (dealColumn n ys).1,
        (dealColumn n ys).2) := by
  rw [show dealColumn (n + 1) (ys ++ [c]) =
      (match (ys ++ [c]).getLast? with
        | none => ([], ys ++ [c])
        | some card =>
          let card2 := if n = 0 then { card with face_up := true } else card
          let p := dealColumn n (ys ++ [c]).dropLast
          (card2 :: p.1, p.2)) from rfl]
  rw [List.getLast?_concat, List.dropLast_concat]

lemma dealColumn_ids : ∀ (n : Nat) (d : List Card),
    idsOf (dealColumn n d).1 + idsOf (dealColumn n d).2 = idsOf d := by
  intro n
  induction n with
  | zero =>
    intro d
    show idsOf [] + idsOf d = idsOf d
    rw [show idsOf [] = 0 from rfl, zero_add]
  | succ m ih =>
    intro d
    rcases d.eq_nil_or_concat with rfl | ⟨ys, c, rfl⟩
    · show idsOf [] + idsOf [] = idsOf []
      rw [show idsOf [] = 0 from rfl, zero_add]
    · rw [List.concat_eq_append, dealColumn_concat]
      have hid : idsOf [if m = 0 then { c with face_up := true } else c] = idsOf [c] := by
        split <;> rfl
      calc idsOf ((if m = 0 then { c with face_up := true } else c) :: (dealColumn m ys).1) +
            idsOf (dealColumn m ys).2
          = idsOf [if m = 0 then { c with face_up := true } else c] +
              (idsOf (dealColumn m ys).1 + idsOf (dealColumn m ys).2) := by
            rw [idsOf_cons]; abel
        _ = idsOf [c] + idsOf ys := by rw [hid, ih ys]
        _ = idsOf (ys ++ [c]) := by rw [idsOf_append]; abel

lemma dealColumn_down : ∀ (n : Nat) (d : List Card), (∀ c ∈ d, c.face_up = false) →
    (∀ c ∈ (dealColumn n d).1.dropLast, c.face_up = false) ∧
    (∀ c ∈ (dealColumn n d).2, c.face_up = false) := by
  intro n
  induction n with
  | zero =>
    intro d hd
    refine ⟨?_, hd⟩
    intro c hc
    simp [dealColumn] at hc
  | succ m ih =>
    intro d hd
    rcases d.eq_nil_or_concat with rfl | ⟨ys, c, rfl⟩
    · constructor
      · intro x hx
        simp [dealColumn] at hx
      · intro x hx
        simp [dealColumn] at hx
    · rw [List.concat_eq_append] at hd
      rw [List.concat_eq_append, dealColumn_concat]
      have hys : ∀ x ∈ ys, x.face_up = false :=
        fun x hx => hd x (List.mem_append.mpr (Or.inl hx))
      obtain ⟨ih1, ih2⟩ := ih ys hys
      refine ⟨?_, ih2⟩
      intro x hx
      cases m with
      | zero =>
        have h0 : (dealColumn 0 ys).1 = [] := rfl
        rw [h0] at hx
        simp at hx
      | succ k =>
        rw [if_neg (Nat.succ_ne_zero k)] at hx
        rcases mem_dropLast_cons hx with rfl | hx'
        · exact hd x (List.mem_append.mpr (Or.inr (List.mem_singleton.mpr rfl)))
        · exact ih1 x hx'

lemma dealTableau_len : ∀ (k s : Nat) (d : List Card), (dealTableau k s d).1.length = k := by
  intro k
  induction k with
  | zero => intro s d; rfl
  | succ m ih =>
    intro s d
    show ((dealColumn s d).1 :: (dealTableau m (s + 1) (dealColumn s d).2).1).length = m + 1
    rw [List.length_cons, ih]

lemma dealTableau_ids : ∀ (k s : Nat) (d : List Card),
    ((dealTableau k s d).1.map idsOf).sum + idsOf (dealTableau k s d).2 = idsOf d := by
  intro k
  induction k with
  | zero =>
    intro s d
    show (List.map idsOf []).sum + idsOf d = idsOf d
    rw [List.map_nil, List.sum_nil, zero_add]
  | succ m ih =>
    intro s d
    show (((dealColumn s d).1 :: (dealTableau m (s + 1) (dealColumn s d).2).1).map idsOf).sum +
        idsOf (dealTableau m (s + 1) (dealColumn s d).2).2 = idsOf d
    rw [List.map_cons, List.sum_cons]
    calc idsOf (dealColumn s d).1 +
          ((dealTableau m (s + 1) (dealColumn s d).2).1.map idsOf).sum +
          idsOf (dealTableau m (s + 1) (dealColumn s d).2).2
        = idsOf (dealColumn s d).1 +
            (((dealTableau m (s + 1) (dealColumn s d).2).1.map idsOf).sum +
              idsOf (dealTableau m (s + 1) (dealColumn s d).2).2) := by abel
      _ = idsOf (dealColumn s d).1 + idsOf (dealColumn s d).2 := by
          rw [ih (s + 1) (dealColumn s d).2]
      _ = idsOf d := dealColumn_ids s d

lemma dealTableau_piles : ∀ (k s : Nat) (d : List Card), (∀ c ∈ d, c.face_up = false) →
    (∀ p ∈ (dealTableau k s d).1, List.Pairwise tabR p) ∧
    (∀ c ∈ (dealTableau k s d).2, c.face_up = false) := by
  intro k
  induction k with
  | zero =>
    intro s d hd
    refine ⟨?_, hd⟩
    intro p hp
    simp [dealTableau] at hp
  | succ m ih =>
    intro s d hd
    obtain ⟨hc1, hc2⟩ := dealColumn_down s d hd
    obtain ⟨ih1, ih2⟩ := ih (s + 1) (dealColumn s d).2 hc2
    constructor
    · intro p hp
      have hp' : p ∈ (dealColumn s d).1 :: (dealTableau m (s + 1) (dealColumn s d).2).1 := hp
      rcases List.mem_cons.mp hp' with rfl | hp''
      · exact pairwise_of_down_dropLast hc1
      · exact ih1 p hp''
    · exact ih2

lemma fullDeck_down : ∀ c ∈ fullDeck, c.face_up = false := by decide

/-- The state invariant maintained by every engine operation: the four/seven
pile counts, conservation of the 52 card identities, an all-face-up waste,
the tableau ordering relation, and ascending same-shape foundations. -/
structure GameInv (g : SolitaireGame) : Prop where
  found_len : g.foundations.length = 4
  tab_len : g.tableau.length = 7
  cards : allCards g = fullDeckIds
  waste_up : ∀ c ∈ g.waste, c.face_up = true
  tab_ok : ∀ p ∈ g.tableau, List.Pairwise tabR p
  found_asc : ∀ p ∈ g.foundations, foundationAsc p

lemma inv_init (deck : List Card) (h : deck.Perm fullDeck) :
    GameInv (SolitaireGame.initialize_deck deck) := by
  have hdown : ∀ c ∈ deck, c.face_up = false :=
    fun c hc => fullDeck_down c (h.mem_iff.mp hc)
  obtain ⟨hpair, -⟩ := dealTableau_piles 7 1 deck hdown
  refine ⟨rfl, dealTableau_len 7 1 deck, ?_, ?_, hpair, ?_⟩
  · show idsOf (dealTableau 7 1 deck).2 + idsOf [] +
        (([[], [], [], []] : List (List Card)).map idsOf).sum +
        ((dealTableau 7 1 deck).1.map idsOf).sum = fullDeckIds
    have h4 : (([[], [], [], []] : List (List Card)).map idsOf).sum = 0 := by
      show idsOf [] + (idsOf [] + (idsOf [] + (idsOf [] + 0))) = 0
      rw [show idsOf [] = 0 from rfl]
      abel
    rw [h4, show idsOf [] = 0 from rfl]
    have := dealTableau_ids 7 1 deck
    have hperm : idsOf deck = fullDeckIds := idsOf_perm h
    calc idsOf (dealTableau 7 1 deck).2 + 0 + 0 + ((dealTableau 7 1 deck).1.map idsOf).sum
        = ((dealTableau 7 1 deck).1.map idsOf).sum + idsOf (dealTableau 7 1 deck).2 := by abel
      _ = idsOf deck := this
      _ = fullDeckIds := hperm
  · intro c hc
    cases hc
  · intro p hp
    have hf : (SolitaireGame.initialize_deck deck).foundations = [[], [], [], []] := rfl
    rw [hf] at hp
    have hp' : p = [] ∨ p = [] ∨ p = [] ∨ p = [] := by simpa using hp
    rcases hp' with rfl | rfl | rfl | rfl <;> exact foundationAsc_nil

lemma draw_nil (g : SolitaireGame) (h : g.stock = []) :
    g.draw_from_stock =
      { g with
        stock := g.waste.reverse.map fun c => { c with face_up := false },
        waste := [] } := by
  unfold SolitaireGame.draw_from_stock
  rw [h, List.getLast?_nil]

lemma draw_concat (g : SolitaireGame) (ys : List Card) (c : Card) (h : g.stock = ys ++ [c]) :
    g.draw_from_stock =
      { g with
        stock := ys,
        waste := g.waste ++ [{ c with face_up := true }],
        moves := g.moves + 1 } := by
  unfold SolitaireGame.draw_from_stock
  rw [h, List.getLast?_concat, List.dropLast_concat]

lemma idsOf_recycle (l : List Card) :
    idsOf (l.reverse.map fun c => { c with face_up := false }) = idsOf l := by
  have hmap : (cardId ∘ fun c => ({ c with face_up := false } : Card)) = cardId := by
    funext c
    rfl
  simp [idsOf, List.map_map, hmap]

lemma inv_draw {g : SolitaireGame} (hg : GameInv g) : GameInv g.draw_from_stock := by
  obtain ⟨h1, h2, h3, h4, h5, h6⟩ := hg
  unfold allCards at h3
  rcases g.stock.eq_nil_or_concat with h | ⟨ys, c, h⟩
  · rw [draw_nil g h]
    rw [h] at h3
    refine ⟨h1, h2, ?_, ?_, h5, h6⟩
    · show idsOf (g.waste.reverse.map fun c => { c with face_up := false }) + idsOf [] +
          (g.foundations.map idsOf).sum + (g.tableau.map idsOf).sum = fullDeckIds
      rw [idsOf_recycle]
      calc idsOf g.waste + idsOf [] + (g.foundations.map idsOf).sum + (g.tableau.map idsOf).sum
          = idsOf [] + idsOf g.waste + (g.foundations.map idsOf).sum +
              (g.tableau.map idsOf).sum := by abel
        _ = fullDeckIds := h3
    · intro x hx
      cases hx
  · rw [List.concat_eq_append] at h
    rw [draw_concat g ys c h]
    rw [h, idsOf_append] at h3
    refine ⟨h1, h2, ?_, ?_, h5, h6⟩
    · show idsOf ys + idsOf (g.waste ++ [{ c with face_up := true }]) +
          (g.foundations.map idsOf).sum + (g.tableau.map idsOf).sum = fullDeckIds
      rw [idsOf_append, idsOf_single_flag]
      calc idsOf ys + (idsOf g.waste + idsOf [c]) + (g.foundations.map idsOf).sum +
            (g.tableau.map idsOf).sum
          = idsOf ys + idsOf [c] + idsOf g.waste + (g.foundations.map idsOf).sum +
              (g.tableau.map idsOf).sum := by abel
        _ = fullDeckIds := h3
    · intro x hx
      rcases List.mem_append.mp hx with hx | hx
      · exact h4 x hx
      · rcases List.mem_singleton.mp hx with rfl
        rfl

lemma move_to_tableau_waste_cases (g : SolitaireGame) (t ci : Nat) (r : Bool × SolitaireGame)
    (h : g.move_to_tableau Src.waste t ci = some r) :
    r = (false, g) ∨
    ∃ card target, g.waste.getLast? = some card ∧ g.tableau.get? t = some target ∧
      can_place_on_tableau card target = true ∧
      r = (true,
        { g with
          tableau := g.tableau.set t (target ++ [card]),
          waste := flipTop g.waste.dropLast,
          moves := g.moves + 1 }) := by
  simp only [SolitaireGame.move_to_tableau] at h
  split at h
  · exact Or.inl (Option.some.inj h).symm
  · rename_i card hcard
    split at h
    · cases h
    · rename_i target htgt
      split at h
      · rename_i hacc
        exact Or.inr ⟨card, target, hcard, htgt, hacc, (Option.some.inj h).symm⟩
      · exact Or.inl (Option.some.inj h).symm

lemma move_to_tableau_tab_cases (g : SolitaireGame) (f t ci : Nat) (r : Bool × SolitaireGame)
    (h : g.move_to_tableau (Src.tableau f) t ci = some r) :
    r = (false, g) ∨
    ∃ (pile target : List Card) (hci : ci < pile.length),
      f < 7 ∧ g.tableau.get? f = some pile ∧ g.tableau.get? t = some target ∧
      (pile.get ⟨ci, hci⟩).face_up = true ∧
      can_place_on_tableau (pile.get ⟨ci, hci⟩) target = true ∧
      r = (true,
        { g with
          tableau := (g.tableau.set t (target ++ pile.drop ci)).set f
            (flipTop (((g.tableau.set t (target ++ pile.drop ci)).getD f []).take ci)),
          moves := g.moves + 1 }) := by
  simp only [SolitaireGame.move_to_tableau] at h
  split at h
  · rename_i h7
    split at h
    · cases h
    · rename_i pile hpile
      split at h
      · rename_i hci
        split at h
        · rename_i hup
          split at h
          · cases h
          · rename_i target htgt
            split at h
            · rename_i hacc
              exact Or.inr ⟨pile, target, hci, h7, hpile, htgt, hup, hacc,
                (Option.some.inj h).symm⟩
            · exact Or.inl (Option.some.inj h).symm
        · exact Or.inl (Option.some.inj h).symm
      · exact Or.inl (Option.some.inj h).symm
  · exact Or.inl (Option.some.inj h).symm

lemma can_move_true {g : SolitaireGame} {c : Card} {fi : Nat}
    (h : g.can_move_to_foundation c fi = some true) :
    ∃ fD, g.foundations.get? fi = some fD ∧
      ((fD = [] ∧ c.rank = Rank.ace) ∨
        ∃ t, fD.getLast? = some t ∧ c.suit = t.suit ∧
          rankValue c.rank = rankValue t.rank + 1) := by
  unfold SolitaireGame.can_move_to_foundation at h
  split at h
  · cases h
  · rename_i fD hfD
    refine ⟨fD, hfD, ?_⟩
    split at h
    · rename_i hnil
      left
      refine ⟨List.getLast?_eq_none_iff.mp hnil, ?_⟩
      exact of_decide_eq_true (Option.some.inj h)
    · rename_i t ht
      right
      have hp := of_decide_eq_true (Option.some.inj h)
      exact ⟨t, ht, hp.1, hp.2⟩

lemma move_to_foundation_waste_cases (g : SolitaireGame) (fi : Nat) (r : Bool × SolitaireGame)
    (h : g.move_to_foundation Src.waste fi = some r) :
    r = (false, g) ∨
    ∃ wtop, g.waste.getLast? = some wtop ∧
      g.can_move_to_foundation wtop fi = some true ∧
      r = (true,
        { g with
          waste := g.waste.dropLast,
          foundations :=
            g.foundations.set fi ((g.foundations.getD fi []) ++ [wtop]),
          moves := g.moves + 1 }) := by
  simp only [SolitaireGame.move_to_foundation] at h
  split at h
  · exact Or.inl (Option.some.inj h).symm
  · rename_i wtop hw
    split at h
    · cases h
    · exact Or.inl (Option.some.inj h).symm
    · rename_i hcm
      exact Or.inr ⟨wtop, hw, hcm, (Option.some.inj h).symm⟩

lemma move_to_foundation_tab_cases (g : SolitaireGame) (i fi : Nat) (r : Bool × SolitaireGame)
    (h : g.move_to_foundation (Src.tableau i) fi = some r) :
    r = (false, g) ∨
    ∃ pile ptop, i < 7 ∧ g.tableau.get? i = some pile ∧ pile.getLast? = some ptop ∧
      ptop.face_up = true ∧ g.can_move_to_foundation ptop fi = some true ∧
      r = (true,
        { g with
          tableau := g.tableau.set i (flipTop pile.dropLast),
          foundations :=
            g.foundations.set fi ((g.foundations.getD fi []) ++ [ptop]),
          moves := g.moves + 1 }) := by
  simp only [SolitaireGame.move_to_foundation] at h
  split at h
  · rename_i h7
    split at h
    · cases h
    · rename_i pile hpile
      split at h
      · exact Or.inl (Option.some.inj h).symm
      · rename_i ptop hptop
        split at h
        · rename_i hup
          split at h
          · cases h
          · exact Or.inl (Option.some.inj h).symm
          · rename_i hcm
            exact Or.inr ⟨pile, ptop, h7, hpile, hptop, hup, hcm, (Option.some.inj h).symm⟩
        · exact Or.inl (Option.some.inj h).symm
  · exact Or.inl (Option.some.inj h).symm

lemma getLast?_mem_list {l : List Card} {c : Card} (h : l.getLast? = some c) : c ∈ l := by
  obtain ⟨hne, rfl⟩ := List.mem_getLast?_eq_getLast (Option.mem_def.mpr h)
  exact List.getLast_mem hne

lemma dropLast_concat_eq {l : List Card} {c : Card} (h : l.getLast? = some c) :
    l.dropLast ++ [c] = l :=
  List.dropLast_append_getLast? c (Option.mem_def.mpr h)

lemma inv_move_to_tableau {g : SolitaireGame} (hg : GameInv g) (s : Src) (t ci : Nat)
    {r : Bool × SolitaireGame} (h : g.move_to_tableau s t ci = some r) : GameInv r.2 := by
  obtain ⟨h1, h2, h3, h4, h5, h6⟩ := hg
  match s with
  | Src.waste =>
    rcases move_to_tableau_waste_cases g t ci r h with rfl | ⟨card, target, hw, htgt, hacc, rfl⟩
    · exact ⟨h1, h2, h3, h4, h5, h6⟩
    · have hlt : t < g.tableau.length := (List.get?_eq_some.mp htgt).1
      have hsplit : g.waste.dropLast ++ [card] = g.waste := dropLast_concat_eq hw
      have hcardmem : card ∈ g.waste := getLast?_mem_list hw
      refine ⟨h1, by rw [List.length_set]; exact h2, ?_, ?_, ?_, h6⟩
      · show idsOf g.stock + idsOf (flipTop g.waste.dropLast) +
            (g.foundations.map idsOf).sum +
            ((g.tableau.set t (target ++ [card])).map idsOf).sum = fullDeckIds
        unfold allCards at h3
        rw [← hsplit, idsOf_append] at h3
        have e := mapSum_set idsOf g.tableau t (target ++ [card]) hlt
        rw [getD_of_get? htgt, idsOf_append] at e
        have hS : ((g.tableau.set t (target ++ [card])).map idsOf).sum =
            (g.tableau.map idsOf).sum + idsOf [card] := by
          have e2 : ((g.tableau.set t (target ++ [card])).map idsOf).sum + idsOf target =
              ((g.tableau.map idsOf).sum + idsOf [card]) + idsOf target := by
            rw [e]
            abel
          exact add_right_cancel e2
        rw [flipTop_ids, hS]
        calc idsOf g.stock + idsOf g.waste.dropLast + (g.foundations.map idsOf).sum +
              ((g.tableau.map idsOf).sum + idsOf [card])
            = idsOf g.stock + (idsOf g.waste.dropLast + idsOf [card]) +
                (g.foundations.map idsOf).sum + (g.tableau.map idsOf).sum := by abel
          _ = fullDeckIds := h3
      · intro x hx
        exact flipTop_all_up (fun c hc => h4 c ((List.dropLast_sublist g.waste).subset hc)) x hx
      · intro p hp
        rcases List.mem_or_eq_of_mem_set hp with hp' | rfl
        · exact h5 p hp'
        · exact pairwise_place_run (h5 target (List.get?_mem htgt))
            (List.pairwise_singleton _ _) (h4 card hcardmem) hacc
  | Src.tableau f =>
    rcases move_to_tableau_tab_cases g f t ci r h with
      rfl | ⟨pile, target, hci, h7, hpile, htgt, hup, hacc, rfl⟩
    · exact ⟨h1, h2, h3, h4, h5, h6⟩
    · by_cases hft : f = t
      · subst hft
        rw [hpile] at htgt
        obtain rfl : pile = target := Option.some.inj htgt
        have hdead := no_self_place (h5 pile (List.get?_mem hpile)) hci hup
        rw [hdead] at hacc
        cases hacc
      · have hltT : t < g.tableau.length := (List.get?_eq_some.mp htgt).1
        have hltF : f < g.tableau.length := (List.get?_eq_some.mp hpile).1
        have hT1f : (g.tableau.set t (target ++ pile.drop ci)).getD f [] = pile := by
          apply getD_of_get?
          rw [List.get?_set_ne _ _ (fun hh => hft hh.symm)]
          exact hpile
        rw [hT1f]
        refine ⟨h1, by rw [List.length_set, List.length_set]; exact h2, ?_, h4, ?_, h6⟩
        · show idsOf g.stock + idsOf g.waste + (g.foundations.map idsOf).sum +
              (((g.tableau.set t (target ++ pile.drop ci)).set f
                (flipTop (pile.take ci))).map idsOf).sum = fullDeckIds
          unfold allCards at h3
          have e2 := mapSum_set idsOf g.tableau t (target ++ pile.drop ci) hltT
          rw [getD_of_get? htgt, idsOf_append] at e2
          have hS1 : ((g.tableau.set t (target ++ pile.drop ci)).map idsOf).sum =
              (g.tableau.map idsOf).sum + idsOf (pile.drop ci) := by
            have e2' : ((g.tableau.set t (target ++ pile.drop ci)).map idsOf).sum +
                idsOf target =
                ((g.tableau.map idsOf).sum + idsOf (pile.drop ci)) + idsOf target := by
              rw [e2]
              abel
            exact add_right_cancel e2'
          have hltF' : f < (g.tableau.set t (target ++ pile.drop ci)).length := by
            rw [List.length_set]
            exact hltF
          have e1 := mapSum_set idsOf (g.tableau.set t (target ++ pile.drop ci)) f
            (flipTop (pile.take ci)) hltF'
          rw [hT1f, flipTop_ids] at e1
          have hpilesplit : idsOf pile = idsOf (pile.take ci) + idsOf (pile.drop ci) := by
            conv_lhs => rw [← List.take_append_drop ci pile]
            rw [idsOf_append]
          have hS2 : (((g.tableau.set t (target ++ pile.drop ci)).set f
              (flipTop (pile.take ci))).map idsOf).sum = (g.tableau.map idsOf).sum := by
            have efin : (((g.tableau.set t (target ++ pile.drop ci)).set f
                (flipTop (pile.take ci))).map idsOf).sum + idsOf pile =
                (g.tableau.map idsOf).sum + idsOf pile := by
              rw [e1, hS1, hpilesplit]
              abel
            exact add_right_cancel efin
          rw [hS2]
          exact h3
        · intro p hp
          rcases List.mem_or_eq_of_mem_set hp with hp' | rfl
          · rcases List.mem_or_eq_of_mem_set hp' with hp'' | rfl
            · exact h5 p hp''
            · have hdrop : pile.drop ci = pile.get ⟨ci, hci⟩ :: pile.drop (ci + 1) :=
                List.drop_eq_get_cons hci
              rw [hdrop]
              exact pairwise_place_run (h5 target (List.get?_mem htgt))
                (hdrop ▸ ((h5 pile (List.get?_mem hpile)).sublist (List.drop_sublist ci pile)))
                hup hacc
          · exact flipTop_pairwise ((h5 pile (List.get?_mem hpile)).sublist
              (List.take_sublist ci pile))

lemma inv_move_to_foundation {g : SolitaireGame} (hg : GameInv g) (s : Src) (fi : Nat)
    {r : Bool × SolitaireGame} (h : g.move_to_foundation s fi = some r) : GameInv r.2 := by
  obtain ⟨h1, h2, h3, h4, h5, h6⟩ := hg
  match s with
  | Src.waste =>
    rcases move_to_foundation_waste_cases g fi r h with rfl | ⟨wtop, hw, hcm, rfl⟩
    · exact ⟨h1, h2, h3, h4, h5, h6⟩
    · obtain ⟨fD, hfD, hbranch⟩ := can_move_true hcm
      have hltF : fi < g.foundations.length := (List.get?_eq_some.mp hfD).1
      have hsplit : g.waste.dropLast ++ [wtop] = g.waste := dropLast_concat_eq hw
      rw [getD_of_get? hfD]
      refine ⟨by rw [List.length_set]; exact h1, h2, ?_, ?_, h5, ?_⟩
      · show idsOf g.stock + idsOf g.waste.dropLast +
            ((g.foundations.set fi (fD ++ [wtop])).map idsOf).sum +
            (g.tableau.map idsOf).sum = fullDeckIds
        unfold allCards at h3
        rw [← hsplit, idsOf_append] at h3
        have e := mapSum_set idsOf g.foundations fi (fD ++ [wtop]) hltF
        rw [getD_of_get? hfD, idsOf_append] at e
        have hS : ((g.foundations.set fi (fD ++ [wtop])).map idsOf).sum =
            (g.foundations.map idsOf).sum + idsOf [wtop] := by
          have e2 : ((g.foundations.set fi (fD ++ [wtop])).map idsOf).sum + idsOf fD =
              ((g.foundations.map idsOf).sum + idsOf [wtop]) + idsOf fD := by
            rw [e]
            abel
          exact add_right_cancel e2
        rw [hS]
        calc idsOf g.stock + idsOf g.waste.dropLast +
              ((g.foundations.map idsOf).sum + idsOf [wtop]) + (g.tableau.map idsOf).sum
            = idsOf g.stock + (idsOf g.waste.dropLast + idsOf [wtop]) +
                (g.foundations.map idsOf).sum + (g.tableau.map idsOf).sum := by abel
          _ = fullDeckIds := h3
      · intro x hx
        exact h4 x ((List.dropLast_sublist g.waste).subset hx)
      · intro p hp
        rcases List.mem_or_eq_of_mem_set hp with hp' | rfl
        · exact h6 p hp'
        · refine foundationAsc_push (h6 fD (List.get?_mem hfD)) ?_
          rcases hbranch with ⟨hnil, hace⟩ | ⟨tc, htc, -, hval⟩
          · exact Or.inl ⟨hnil, hace⟩
          · exact Or.inr ⟨tc, htc, hval⟩
  | Src.tableau i =>
    rcases move_to_foundation_tab_cases g i fi r h with
      rfl | ⟨pile, ptop, h7, hpile, hptop, hup, hcm, rfl⟩
    · exact ⟨h1, h2, h3, h4, h5, h6⟩
    · obtain ⟨fD, hfD, hbranch⟩ := can_move_true hcm
      have hltF : fi < g.foundations.length := (List.get?_eq_some.mp hfD).1
      have hltT : i < g.tableau.length := (List.get?_eq_some.mp hpile).1
      have hsplit : pile.dropLast ++ [ptop] = pile := dropLast_concat_eq hptop
      rw [getD_of_get? hfD]
      refine ⟨by rw [List.length_set]; exact h1, by rw [List.length_set]; exact h2,
        ?_, h4, ?_, ?_⟩
      · show idsOf g.stock + idsOf g.waste +
            ((g.foundations.set fi (fD ++ [ptop])).map idsOf).sum +
            ((g.tableau.set i (flipTop pile.dropLast)).map idsOf).sum = fullDeckIds
        unfold allCards at h3
        have eF := mapSum_set idsOf g.foundations fi (fD ++ [ptop]) hltF
        rw [getD_of_get? hfD, idsOf_append] at eF
        have hSF : ((g.foundations.set fi (fD ++ [ptop])).map idsOf).sum =
            (g.foundations.map idsOf).sum + idsOf [ptop] := by
          have e2 : ((g.foundations.set fi (fD ++ [ptop])).map idsOf).sum + idsOf fD =
              ((g.foundations.map idsOf).sum + idsOf [ptop]) + idsOf fD := by
            rw [eF]
            abel
          exact add_right_cancel e2
        have eT := mapSum_set idsOf g.tableau i (flipTop pile.dropLast) hltT
        rw [getD_of_get? hpile, flipTop_ids] at eT
        have hpilesplit : idsOf pile = idsOf pile.dropLast + idsOf [ptop] := by
          conv_lhs => rw [← hsplit]
          rw [idsOf_append]
        have hST : ((g.tableau.set i (flipTop pile.dropLast)).map idsOf).sum + idsOf [ptop] =
            (g.tableau.map idsOf).sum := by
          have e2 : ((g.tableau.set i (flipTop pile.dropLast)).map idsOf).sum + idsOf [ptop] +
              idsOf pile.dropLast = (g.tableau.map idsOf).sum + idsOf pile.dropLast := by
            calc ((g.tableau.set i (flipTop pile.dropLast)).map idsOf).sum + idsOf [ptop] +
                  idsOf pile.dropLast
                = ((g.tableau.set i (flipTop pile.dropLast)).map idsOf).sum + idsOf pile := by
                  rw [hpilesplit]
                  abel
              _ = (g.tableau.map idsOf).sum + idsOf pile.dropLast := eT
          exact add_right_cancel e2
        rw [hSF]
        calc idsOf g.stock + idsOf g.waste +
              ((g.foundations.map idsOf).sum + idsOf [ptop]) +
              ((g.tableau.set i (flipTop pile.dropLast)).map idsOf).sum
            = idsOf g.stock + idsOf g.waste + (g.foundations.map idsOf).sum +
                (((g.tableau.set i (flipTop pile.dropLast)).map idsOf).sum + idsOf [ptop]) := by
              abel
          _ = idsOf g.stock + idsOf g.waste + (g.foundations.map idsOf).sum +
                (g.tableau.map idsOf).sum := by rw [hST]
          _ = fullDeckIds := h3
      · intro p hp
        rcases List.mem_or_eq_of_mem_set hp with hp' | rfl
        · exact h5 p hp'
        · exact flipTop_pairwise ((h5 pile (List.get?_mem hpile)).sublist
            (List.dropLast_sublist pile))
      · intro p hp
        rcases List.mem_or_eq_of_mem_set hp with hp' | rfl
        · exact h6 p hp'
        · refine foundationAsc_push (h6 fD (List.get?_mem hfD)) ?_
          rcases hbranch with ⟨hnil, hace⟩ | ⟨tc, htc, -, hval⟩
          · exact Or.inl ⟨hnil, hace⟩
          · exact Or.inr ⟨tc, htc, hval⟩

lemma inv_flip {g : SolitaireGame} (hg : GameInv g) (i : Nat) :
    GameInv (g.flip_tableau_top i) := by
  obtain ⟨h1, h2, h3, h4, h5, h6⟩ := hg
  unfold SolitaireGame.flip_tableau_top
  split
  · exact ⟨h1, h2, h3, h4, h5, h6⟩
  · rename_i pile hpile
    have hlt : i < g.tableau.length := (List.get?_eq_some.mp hpile).1
    refine ⟨h1, by rw [List.length_set]; exact h2, ?_, h4, ?_, h6⟩
    · show idsOf g.stock + idsOf g.waste + (g.foundations.map idsOf).sum +
          ((g.tableau.set i (flipTop pile)).map idsOf).sum = fullDeckIds
      have e := mapSum_set idsOf g.tableau i (flipTop pile) hlt
      rw [getD_of_get? hpile, flipTop_ids] at e
      rw [add_right_cancel e]
      exact h3
    · intro p hp
      rcases List.mem_or_eq_of_mem_set hp with hp' | rfl
      · exact h5 p hp'
      · exact flipTop_pairwise (h5 pile (List.get?_mem hpile))

lemma inv_apply {g : SolitaireGame} (hg : GameInv g) (m : Move) : GameInv (applyMove g m) := by
  match m with
  | Move.draw => exact inv_draw hg
  | Move.toTableau s t ci =>
    simp only [applyMove]
    split
    · rename_i r hr
      exact inv_move_to_tableau hg s t ci hr
    · exact hg
  | Move.toFoundation s fi =>
    simp only [applyMove]
    split
    · rename_i r hr
      exact inv_move_to_foundation hg s fi hr
    · exact hg
  | Move.flip i => exact inv_flip hg i

lemma reachable_inv {g : SolitaireGame} (hg : Reachable g) : GameInv g := by
  induction hg with
  | init deck h => exact inv_init deck h
  | step g m _ ih => exact inv_apply ih m

lemma fullDeckIds_nodup : fullDeckIds.Nodup := by decide

lemma fullDeckIds_complete : ∀ p : Suit × Rank, p ∈ fullDeckIds := by
  intro p
  obtain ⟨s, r⟩ := p
  cases s <;> cases r <;> decide

/-- C1: every reachable state, before and after any engine operation
(drawing including the recycle, waste-to-tableau and tableau-run moves,
foundation moves, the manual flip), carries exactly the 52 standard card
identities across stock, waste, foundations and tableau — no duplicate and
no omission. -/
theorem c1_deck_conservation (g : SolitaireGame) (hg : Reachable g) :
    allCards g = fullDeckIds ∧
    (∀ m : Move, allCards (applyMove g m) = fullDeckIds) ∧
    (allCards g).Nodup ∧
    (∀ p : Suit × Rank, p ∈ allCards g) := by
  have hinv := reachable_inv hg
  refine ⟨hinv.cards, ?_, ?_, ?_⟩
  · intro m
    exact (inv_apply hinv m).cards
  · rw [hinv.cards]
    exact fullDeckIds_nodup
  · intro p
    rw [hinv.cards]
    exact fullDeckIds_complete p

/-- Witness for C1 at the fresh deal of the unshuffled deck. -/
theorem c1_witness : allCards (SolitaireGame.initialize_deck fullDeck) = fullDeckIds :=
  (c1_deck_conservation _ (Reachable.init fullDeck (List.Perm.refl _))).1

lemma cardId_comp_flag (b : Bool) :
    (cardId ∘ fun c => ({ c with face_up := b } : Card)) = cardId := by
  funext c
  rfl

/-- C2: with an empty stock, `draw_from_stock` recycles: the stock becomes the
reverse of the waste with every card face-down, the waste empties, the move
counter and everything else are untouched, and the result is this fixed
deterministic state (no re-randomization). -/
theorem c2_recycle (g : SolitaireGame) (h : g.stock = []) :
    g.draw_from_stock =
      { g with
        stock := g.waste.reverse.map fun c => { c with face_up := false },
        waste := [] } ∧
    (g.draw_from_stock).moves = g.moves ∧
    (g.draw_from_stock).waste = [] ∧
    (g.draw_from_stock).stock.map cardId = (g.waste.map cardId).reverse ∧
    (∀ c ∈ (g.draw_from_stock).stock, c.face_up = false) := by
  have hd := draw_nil g h
  refine ⟨hd, by rw [hd], by rw [hd], ?_, ?_⟩
  · rw [hd]
    show (g.waste.reverse.map fun c => { c with face_up := false }).map cardId =
      (g.waste.map cardId).reverse
    rw [List.map_map, cardId_comp_flag, List.map_reverse]
  · rw [hd]
    intro c hc
    obtain ⟨d, -, rfl⟩ := List.mem_map.mp hc
    rfl

/-- A state with an empty stock and two face-up waste cards, for the C2 and C3
witnesses. -/
def exampleRecycleGame : SolitaireGame :=
  { stock := [],
    waste := [⟨Suit.heart, Rank.ace, true⟩, ⟨Suit.spade, Rank.king, true⟩],
    foundations := [[], [], [], []],
    tableau := [[], [], [], [], [], [], []],
    moves := 5 }

/-- Witness for C2 on a concrete state. -/
theorem c2_witness :
    (exampleRecycleGame.draw_from_stock).moves = exampleRecycleGame.moves ∧
    (exampleRecycleGame.draw_from_stock).waste = [] :=
  ⟨(c2_recycle exampleRecycleGame rfl).2.1, (c2_recycle exampleRecycleGame rfl).2.2.1⟩

lemma draw_iterate : ∀ (s : List Card) (g : SolitaireGame), g.stock = s →
    (SolitaireGame.draw_from_stock)^[s.length] g =
      { g with
        stock := [],
        waste := g.waste ++ (s.reverse.map fun c => { c with face_up := true }),
        moves := g.moves + s.length } := by
  intro s
  induction s using List.reverseRecOn with
  | nil =>
    intro g hg
    obtain ⟨st, wa, fo, ta, mv⟩ := g
    simp only at hg
    subst hg
    simp
  | append_singleton ys c ih =>
    intro g hg
    rw [List.length_append, List.length_singleton, Function.iterate_succ_apply,
      draw_concat g ys c hg]
    rw [ih { g with
      stock := ys,
      waste := g.waste ++ [{ c with face_up := true }],
      moves := g.moves + 1 } rfl]
    have hw : (g.waste ++ [{ c with face_up := true }]) ++
        (ys.reverse.map fun x => { x with face_up := true }) =
        g.waste ++ ((ys ++ [c]).reverse.map fun x => { x with face_up := true }) := by
      rw [List.reverse_append]
      simp [List.append_assoc]
    have hm : g.moves + 1 + ys.length = g.moves + (ys.length + 1) := by omega
    rw [hw, hm]

/-- C3: with an empty stock and an all-face-up waste of length n, one recycle
followed by n redraws restores the waste to exactly its pre-recycle sequence:
the recycle composed with the redraws is the identity on the waste. -/
theorem c3_recycle_roundtrip (g : SolitaireGame) (h : g.stock = [])
    (hw : ∀ c ∈ g.waste, c.face_up = true) :
    ((SolitaireGame.draw_from_stock)^[g.waste.length] g.draw_from_stock).waste = g.waste := by
  rw [draw_nil g h]
  have hlen : (g.waste.reverse.map fun c => { c with face_up := false }).length =
      g.waste.length := by
    simp
  have hit := draw_iterate (g.waste.reverse.map fun c => { c with face_up := false })
    { g with
      stock := g.waste.reverse.map fun c => { c with face_up := false },
      waste := [] } rfl
  rw [hlen] at hit
  rw [hit]
  show ([] : List Card) ++
      (((g.waste.reverse.map fun c => { c with face_up := false }).reverse).map
        fun c => { c with face_up := true }) = g.waste
  rw [List.nil_append, ← List.map_reverse, List.reverse_reverse, List.map_map]
  have : ∀ c ∈ g.waste,
      ((fun c => ({ c with face_up := true } : Card)) ∘
        fun c => ({ c with face_up := false } : Card)) c = id c := by
    intro c hc
    have hcu := hw c hc
    obtain ⟨s, r, u⟩ := c
    simp only at hcu
    subst hcu
    rfl
  rw [List.map_congr_left this, List.map_id]

/-- Witness for C3 on a concrete state. -/
theorem c3_witness :
    ((SolitaireGame.draw_from_stock)^[exampleRecycleGame.waste.length]
      exampleRecycleGame.draw_from_stock).waste = exampleRecycleGame.waste :=
  c3_recycle_roundtrip exampleRecycleGame rfl (by decide)

/-- C5: the tableau placement predicate holds iff the pile is empty and the
card is a King, or the card is exactly one rank value below the top card and
of the other color; a Queen is never accepted by an empty tableau pile. -/
theorem c5_tableau_accept :
    (∀ (c : Card) (pile : List Card),
      can_place_on_tableau c pile = true ↔
        ((pile = [] ∧ c.rank = Rank.king) ∨
          ∃ top, pile.getLast? = some top ∧
            (rankValue c.rank : Int) = (rankValue top.rank : Int) - 1 ∧
            c.color ≠ top.color)) ∧
    (∀ (s : Suit) (b : Bool), can_place_on_tableau ⟨s, Rank.queen, b⟩ [] = false) := by
  constructor
  · intro c pile
    rcases pile.eq_nil_or_concat with rfl | ⟨ys, t, rfl⟩
    · unfold can_place_on_tableau
      rw [List.getLast?_nil]
      simp
    · rw [List.concat_eq_append]
      unfold can_place_on_tableau
      rw [List.getLast?_concat]
      constructor
      · intro hdec
        obtain ⟨h1, h2⟩ := of_decide_eq_true hdec
        refine Or.inr ⟨t, rfl, ?_, h2⟩
        have := rankValue_pos t.rank
        omega
      · intro hcases
        rcases hcases with ⟨habs, -⟩ | ⟨top, htop, hv, hc⟩
        · exact absurd habs (by simp)
        · obtain rfl : t = top := Option.some.inj htop
          apply decide_eq_true
          have := rankValue_pos t.rank
          exact ⟨by omega, hc⟩
  · intro s b
    unfold can_place_on_tableau
    rw [List.getLast?_nil]
    apply decide_eq_false
    intro hq
    exact Rank.noConfusion hq

/-- Witness for C5: a Queen on an empty tableau pile is rejected. -/
theorem c5_witness : can_place_on_tableau ⟨Suit.heart, Rank.queen, true⟩ [] = false :=
  c5_tableau_accept.2 Suit.heart true

/-- A state whose waste holds the two of hearts below the ace of hearts, for
the foundation scenario of C6. -/
def exampleFoundationGame : SolitaireGame :=
  { stock := [],
    waste := [⟨Suit.heart, Rank.two, true⟩, ⟨Suit.heart, Rank.ace, true⟩],
    foundations := [[], [], [], []],
    tableau := [[], [], [], [], [], [], []],
    moves := 0 }

/-- The state after moving the ace of hearts to foundation 0. -/
def exampleFoundationGame1 : SolitaireGame :=
  applyMove exampleFoundationGame (Move.toFoundation Src.waste 0)

/-- The state after also moving the two of hearts to foundation 0. -/
def exampleFoundationGame2 : SolitaireGame :=
  applyMove exampleFoundationGame1 (Move.toFoundation Src.waste 0)

/-- C6: the foundation placement predicate holds iff the pile is empty and the
card is an Ace, or the card has the top card's suit and exactly the next rank
value; the two of spades is rejected both on an empty foundation and on one
topped by the ace of hearts, while ace of hearts then two of hearts build a
foundation of length 2. -/
theorem c6_foundation_accept :
    (∀ (g : SolitaireGame) (c : Card) (fi : Nat) (f : List Card),
      g.foundations.get? fi = some f →
      (g.can_move_to_foundation c fi = some true ↔
        ((f = [] ∧ c.rank = Rank.ace) ∨
          ∃ top, f.getLast? = some top ∧ c.suit = top.suit ∧
            (rankValue c.rank : Int) = (rankValue top.rank : Int) + 1))) ∧
    exampleFoundationGame.can_move_to_foundation ⟨Suit.spade, Rank.two, true⟩ 0 = some false ∧
    exampleFoundationGame1.can_move_to_foundation ⟨Suit.spade, Rank.two, true⟩ 0 = some false ∧
    exampleFoundationGame.move_to_foundation Src.waste 0 = some (true, exampleFoundationGame1) ∧
    exampleFoundationGame1.move_to_foundation Src.waste 0 = some (true, exampleFoundationGame2) ∧
    (exampleFoundationGame2.foundations.getD 0 []).length = 2 := by
  refine ⟨?_, by decide, by decide, by decide, by decide, by decide⟩
  intro g c fi f hf
  have hred : g.can_move_to_foundation c fi =
      (match f.getLast? with
        | none => some (decide (c.rank = Rank.ace))
        | some top =>
          some (decide (c.suit = top.suit ∧ rankValue c.rank = rankValue top.rank + 1))) := by
    unfold SolitaireGame.can_move_to_foundation
    rw [hf]
  rw [hred]
  rcases f.eq_nil_or_concat with rfl | ⟨ys, t, rfl⟩
  · rw [List.getLast?_nil]
    simp
  · rw [List.concat_eq_append, List.getLast?_concat]
    constructor
    · intro hdec
      obtain ⟨h1, h2⟩ := of_decide_eq_true (Option.some.inj hdec)
      exact Or.inr ⟨t, rfl, h1, by omega⟩
    · intro hcases
      rcases hcases with ⟨habs, -⟩ | ⟨top, htop, hs, hv⟩
      · exact absurd habs (by simp)
      · obtain rfl : t = top := Option.some.inj htop
        have hd : decide (c.suit = t.suit ∧
            rankValue c.rank = rankValue t.rank + 1) = true := by
          apply decide_eq_true
          exact ⟨hs, by omega⟩
        show some (decide (c.suit = t.suit ∧ rankValue c.rank = rankValue t.rank + 1)) =
          some true
        rw [hd]

/-- Witness for C6: the ace of hearts is accepted by the empty foundation 0. -/
theorem c6_witness :
    exampleFoundationGame.can_move_to_foundation ⟨Suit.heart, Rank.ace, true⟩ 0 = some true :=
  (c6_foundation_accept.1 exampleFoundationGame ⟨Suit.heart, Rank.ace, true⟩ 0 [] rfl).mpr
    (Or.inl ⟨rfl, rfl⟩)

/-- C7: the three mutating move operations are all-or-nothing: a failure
result always carries the unchanged state, and a move whose source tableau
index is out of range fails with the unchanged state. -/
theorem c7_all_or_nothing (g : SolitaireGame) (s : Src) (t ci fi : Nat)
    (g2 g3 : SolitaireGame) :
    (g.move_to_tableau s t ci = some (false, g2) → g2 = g) ∧
    (g.move_to_foundation s fi = some (false, g3) → g3 = g) ∧
    (∀ j, 7 ≤ j →
      g.move_to_tableau (Src.tableau j) t ci = some (false, g) ∧
      g.move_to_foundation (Src.tableau j) fi = some (false, g)) := by
  refine ⟨?_, ?_, ?_⟩
  · intro h
    match s with
    | Src.waste =>
      rcases move_to_tableau_waste_cases g t ci _ h with
        heq | ⟨card, target, hw, htgt, hacc, heq⟩
      · exact (Prod.ext_iff.mp heq).2
      · exact absurd (Prod.ext_iff.mp heq).1 (by simp)
    | Src.tableau i =>
      rcases move_to_tableau_tab_cases g i t ci _ h with
        heq | ⟨pile, target, hci, h7, hpile, htgt, hup, hacc, heq⟩
      · exact (Prod.ext_iff.mp heq).2
      · exact absurd (Prod.ext_iff.mp heq).1 (by simp)
  · intro h
    match s with
    | Src.waste =>
      rcases move_to_foundation_waste_cases g fi _ h with heq | ⟨wtop, hw, hcm, heq⟩
      · exact (Prod.ext_iff.mp heq).2
      · exact absurd (Prod.ext_iff.mp heq).1 (by simp)
    | Src.tableau i =>
      rcases move_to_foundation_tab_cases g i fi _ h with
        heq | ⟨pile, ptop, h7, hpile, hptop, hup, hcm, heq⟩
      · exact (Prod.ext_iff.mp heq).2
      · exact absurd (Prod.ext_iff.mp heq).1 (by simp)
  · intro j hj
    constructor
    · simp only [SolitaireGame.move_to_tableau, if_neg (Nat.not_lt.mpr hj)]
    · simp only [SolitaireGame.move_to_foundation, if_neg (Nat.not_lt.mpr hj)]

/-- A state with a lone face-up Queen in tableau pile 0, whose move to the
empty pile 1 is illegal. -/
def exampleRejectGame : SolitaireGame :=
  { stock := [],
    waste := [],
    foundations := [[], [], [], []],
    tableau := [[⟨Suit.spade, Rank.queen, true⟩], [], [], [], [], [], []],
    moves := 3 }

/-- Witness for C7: the rejected Queen move returns the state unchanged. -/
theorem c7_witness :
    exampleRejectGame.move_to_tableau (Src.tableau 0) 1 0 =
      some (false, exampleRejectGame) ∧
    exampleRejectGame = exampleRejectGame :=
  ⟨by decide,
    (c7_all_or_nothing exampleRejectGame (Src.tableau 0) 1 0 0 exampleRejectGame
      exampleRejectGame).1 (by decide)⟩

lemma move_to_tableau_tab_success (g : SolitaireGame) (f t ci : Nat)
    (pile target : List Card) (h7 : f < 7) (hf : g.tableau.get? f = some pile)
    (ht : g.tableau.get? t = some target) (hci : ci < pile.length)
    (hup : (pile.get ⟨ci, hci⟩).face_up = true)
    (hacc : can_place_on_tableau (pile.get ⟨ci, hci⟩) target = true) :
    g.move_to_tableau (Src.tableau f) t ci =
      some (true,
        { g with
          tableau := (g.tableau.set t (target ++ pile.drop ci)).set f
            (flipTop (((g.tableau.set t (target ++ pile.drop ci)).getD f []).take ci)),
          moves := g.moves + 1 }) := by
  simp only [SolitaireGame.move_to_tableau, if_pos h7, hf, ht, dif_pos hci, hup, hacc,
    if_true]

/-- C4: `move_to_tableau` from tableau pile `f` to a distinct pile `t` succeeds
iff `ci` addresses a face-up card of the source and the target accepts
`pile[ci]`; on success the whole suffix `pile[ci:]` is appended to the target
in order, the source keeps its first `ci` cards with the reveal rule applied,
exactly one move is counted, and nothing else changes. -/
theorem c4_move_tableau_run (g : SolitaireGame) (f t ci : Nat) (pile target : List Card)
    (h7 : f < 7) (hne : f ≠ t)
    (hf : g.tableau.get? f = some pile) (ht : g.tableau.get? t = some target) :
    ((∃ g2, g.move_to_tableau (Src.tableau f) t ci = some (true, g2)) ↔
      ∃ c, pile.get? ci = some c ∧ c.face_up = true ∧
        can_place_on_tableau c target = true) ∧
    (∀ g2, g.move_to_tableau (Src.tableau f) t ci = some (true, g2) →
      g2.tableau.get? t = some (target ++ pile.drop ci) ∧
      g2.tableau.get? f = some (flipTop (pile.take ci)) ∧
      g2.moves = g.moves + 1 ∧
      g2.stock = g.stock ∧ g2.waste = g.waste ∧ g2.foundations = g.foundations ∧
      ∀ j, j ≠ f → j ≠ t → g2.tableau.get? j = g.tableau.get? j) := by
  have hT1f : ∀ X, (g.tableau.set t X).getD f [] = pile := by
    intro X
    apply getD_of_get?
    rw [List.get?_set_ne _ _ (fun hh => hne hh.symm)]
    exact hf
  constructor
  · constructor
    · rintro ⟨g2, hg2⟩
      rcases move_to_tableau_tab_cases g f t ci _ hg2 with
        heq | ⟨pile', target', hci, -, hpile', htgt', hup, hacc, -⟩
      · exact absurd (Prod.ext_iff.mp heq).1 (by simp)
      · obtain rfl : pile = pile' := by
          rw [hf] at hpile'
          exact Option.some.inj hpile'
        obtain rfl : target = target' := by
          rw [ht] at htgt'
          exact Option.some.inj htgt'
        exact ⟨pile.get ⟨ci, hci⟩, List.get?_eq_get hci, hup, hacc⟩
    · rintro ⟨c, hc, hcup, hcacc⟩
      obtain ⟨hci, hcget⟩ := List.get?_eq_some.mp hc
      subst hcget
      exact ⟨_, move_to_tableau_tab_success g f t ci pile target h7 hf ht hci hcup hcacc⟩
  · intro g2 hg2
    rcases move_to_tableau_tab_cases g f t ci _ hg2 with
      heq | ⟨pile', target', hci, -, hpile', htgt', hup, hacc, heq⟩
    · exact absurd (Prod.ext_iff.mp heq).1 (by simp)
    · obtain rfl : pile = pile' := by
        rw [hf] at hpile'
        exact Option.some.inj hpile'
      obtain rfl : target = target' := by
        rw [ht] at htgt'
        exact Option.some.inj htgt'
      obtain rfl : g2 = { g with
          tableau := (g.tableau.set t (target ++ pile.drop ci)).set f
            (flipTop (((g.tableau.set t (target ++ pile.drop ci)).getD f []).take ci)),
          moves := g.moves + 1 } := (Prod.ext_iff.mp heq).2
      rw [hT1f]
      have hltT : t < g.tableau.length := (List.get?_eq_some.mp ht).1
      have hltF : f < g.tableau.length := (List.get?_eq_some.mp hf).1
      have hltF2 : f < (g.tableau.set t (target ++ pile.drop ci)).length := by
        rw [List.length_set]
        exact hltF
      refine ⟨?_, ?_, rfl, rfl, rfl, rfl, ?_⟩
      · show ((g.tableau.set t (target ++ pile.drop ci)).set f
            (flipTop (pile.take ci))).get? t = some (target ++ pile.drop ci)
        rw [List.get?_set_ne _ _ hne]
        exact List.get?_set_eq_of_lt _ hltT
      · show ((g.tableau.set t (target ++ pile.drop ci)).set f
            (flipTop (pile.take ci))).get? f = some (flipTop (pile.take ci))
        exact List.get?_set_eq_of_lt _ hltF2
      · intro j hjf hjt
        show ((g.tableau.set t (target ++ pile.drop ci)).set f
            (flipTop (pile.take ci))).get? j = g.tableau.get? j
        rw [List.get?_set_ne _ _ (fun hh => hjf hh.symm),
          List.get?_set_ne _ _ (fun hh => hjt hh.symm)]

/-- A lone face-up King in tableau pile 0 and an empty pile 1, for the C4
witness. -/
def exampleRunGame : SolitaireGame :=
  { stock := [],
    waste := [],
    foundations := [[], [], [], []],
    tableau := [[⟨Suit.spade, Rank.king, true⟩], [], [], [], [], [], []],
    moves := 0 }

/-- Witness for C4: moving the King run from pile 0 to the empty pile 1
succeeds. -/
theorem c4_witness :
    ∃ g2, exampleRunGame.move_to_tableau (Src.tableau 0) 1 0 = some (true, g2) :=
  (c4_move_tableau_run exampleRunGame 0 1 0 [⟨Suit.spade, Rank.king, true⟩] []
    (by decide) (by decide) rfl rfl).1.mpr
    ⟨⟨Suit.spade, Rank.king, true⟩, rfl, rfl, by decide⟩

/-- One tableau pile as the spec's tableau invariant describes it: a face-down
prefix followed by a face-up suffix that strictly descends in rank and
alternates in color. -/
def specPileInvariant (p : List Card) : Prop :=
  ∃ down up, p = down ++ up ∧ (∀ c ∈ down, c.face_up = false) ∧
    (∀ c ∈ up, c.face_up = true) ∧
    List.Chain' (fun x y : Card => rankValue y.rank < rankValue x.rank ∧ y.color ≠ x.color) up

lemma chain_desc_lt : ∀ (l : List Card) (a : Card),
    List.Chain (fun x y : Card => rankValue y.rank < rankValue x.rank ∧ y.color ≠ x.color)
      a l →
    ∀ b ∈ l, rankValue b.rank < rankValue a.rank := by
  intro l
  induction l with
  | nil =>
    intro a h b hb
    cases hb
  | cons c tl ih =>
    intro a h b hb
    rw [List.chain_cons] at h
    obtain ⟨⟨h1, -⟩, h2⟩ := h
    rcases List.mem_cons.mp hb with rfl | hb'
    · exact h1
    · exact lt_trans (ih c h2 b hb') h1

lemma chain_desc_pairwise : ∀ {l : List Card},
    List.Chain' (fun x y : Card => rankValue y.rank < rankValue x.rank ∧ y.color ≠ x.color)
      l →
    List.Pairwise (fun x y : Card => rankValue y.rank < rankValue x.rank) l := by
  intro l
  induction l with
  | nil =>
    intro h
    exact List.Pairwise.nil
  | cons a tl ih =>
    intro h
    have hch : List.Chain
        (fun x y : Card => rankValue y.rank < rankValue x.rank ∧ y.color ≠ x.color) a tl := h
    refine List.Pairwise.cons ?_ (ih h.tail)
    intro b hb
    exact chain_desc_lt tl a hch b hb

lemma spec_implies_tabR {p : List Card} (h : specPileInvariant p) : List.Pairwise tabR p := by
  obtain ⟨down, up, rfl, hdown, hup, hchain⟩ := h
  rw [List.pairwise_append]
  refine ⟨?_, ?_, ?_⟩
  · apply List.pairwise_of_forall_mem_list
    intro a ha b hb hupa
    rw [hdown a ha] at hupa
    cases hupa
  · refine (chain_desc_pairwise hchain).imp_of_mem ?_
    intro a b ha hb hlt hupa
    exact ⟨hup b hb, le_of_lt hlt⟩
  · intro a ha b hb hupa
    rw [hdown a ha] at hupa
    cases hupa

/-- C10: with a 7-pile tableau satisfying the spec's tableau invariant,
`move_to_tableau` with source index equal to target index always returns
`False` with the state unchanged: the placement test against the pile's own
top never holds for a face-up card of the pile, so the card-losing
extend-then-delete branch is unreachable. -/
theorem c10_self_move_rejected (g : SolitaireGame) (i ci : Nat)
    (hlen : g.tableau.length = 7)
    (hinv : ∀ p ∈ g.tableau, specPileInvariant p) :
    g.move_to_tableau (Src.tableau i) i ci = some (false, g) := by
  by_cases h7 : i < 7
  · have hlt : i < g.tableau.length := by omega
    obtain ⟨pile, hi⟩ : ∃ p, g.tableau.get? i = some p := ⟨_, List.get?_eq_get hlt⟩
    have hpw : List.Pairwise tabR pile := spec_implies_tabR (hinv pile (List.get?_mem hi))
    have hi2 : g.tableau[i]? = some pile := by
      rw [← List.get?_eq_getElem?]
      exact hi
    by_cases hci : ci < pile.length
    · by_cases hup : (pile.get ⟨ci, hci⟩).face_up = true
      · have hacc := no_self_place hpw hci hup
        have hup2 : pile[ci].face_up = true := hup
        have hacc2 : can_place_on_tableau pile[ci] pile = false := hacc
        simp [SolitaireGame.move_to_tableau, h7, hi2, hci, hup2, hacc2]
      · have hup2 : ¬pile[ci].face_up = true := hup
        simp [SolitaireGame.move_to_tableau, h7, hi2, hci, hup2]
    · simp [SolitaireGame.move_to_tableau, h7, hi2, hci]
  · simp [SolitaireGame.move_to_tableau, h7]

/-- Witness for C10: a same-pile move on a state satisfying the invariant is
rejected without change. -/
theorem c10_witness :
    exampleRejectGame.move_to_tableau (Src.tableau 0) 0 0 =
      some (false, exampleRejectGame) := by
  apply c10_self_move_rejected exampleRejectGame 0 0 rfl
  intro p hp
  have hp' : p = [⟨Suit.spade, Rank.queen, true⟩] ∨ p = [] := by
    simpa [exampleRejectGame] using hp
  rcases hp' with rfl | rfl
  · exact ⟨[], [⟨Suit.spade, Rank.queen, true⟩], rfl, by decide, by decide,
      List.chain'_singleton _⟩
  · exact ⟨[], [], rfl, by decide, by decide, List.chain'_nil⟩

lemma card_idsOf (l : List Card) : Multiset.card (idsOf l) = l.length := by
  simp [idsOf]

lemma card_mapSum (ls : List (List Card)) :
    Multiset.card ((ls.map idsOf).sum) = (ls.map List.length).sum := by
  induction ls with
  | nil => simp
  | cons a tl ih => simp [card_idsOf, ih]

lemma length_eq_four {α : Type} {l : List α} (h : l.length = 4) :
    ∃ a b c d, l = [a, b, c, d] := by
  cases l with
  | nil => simp at h
  | cons a l1 =>
    cases l1 with
    | nil => simp at h
    | cons b l2 =>
      cases l2 with
      | nil => simp at h
      | cons c l3 =>
        cases l3 with
        | nil => simp at h
        | cons d l4 =>
          cases l4 with
          | nil => exact ⟨a, b, c, d, rfl⟩
          | cons e l5 =>
            simp only [List.length_cons] at h
            omega

lemma sum_map_len_const {ls : List (List Card)} {c : Nat} (h : ∀ p ∈ ls, p.length = c) :
    (ls.map List.length).sum = c * ls.length := by
  induction ls with
  | nil => simp
  | cons a tl ih =>
    rw [List.map_cons, List.sum_cons, List.length_cons,
      h a (List.mem_cons_self a tl), ih (fun p hp => h p (List.mem_cons_of_mem a hp))]
    ring

/-- C8: on reachable states `is_won` holds iff every foundation pile has 13
cards, equivalently iff stock, waste and all tableau piles are empty; a fresh
deal is never won. -/
theorem c8_is_won (g : SolitaireGame) (hg : Reachable g) :
    (g.is_won = true ↔ ∀ p ∈ g.foundations, p.length = 13) ∧
    (g.is_won = true ↔ g.stock = [] ∧ g.waste = [] ∧ ∀ p ∈ g.tableau, p = []) ∧
    (∀ deck : List Card, (SolitaireGame.initialize_deck deck).is_won = false) := by
  have hinv := reachable_inv hg
  have hfirst : g.is_won = true ↔ ∀ p ∈ g.foundations, p.length = 13 := by
    simp only [SolitaireGame.is_won, List.all_eq_true, beq_iff_eq]
  have hcard := congrArg Multiset.card hinv.cards
  have hfull : Multiset.card fullDeckIds = 52 := by decide
  unfold allCards at hcard
  rw [hfull] at hcard
  simp only [Multiset.card_add, card_idsOf, card_mapSum] at hcard
  have hsecond : g.is_won = true ↔
      (g.stock = [] ∧ g.waste = [] ∧ ∀ p ∈ g.tableau, p = []) := by
    rw [hfirst]
    constructor
    · intro h13
      have hfsum : (g.foundations.map List.length).sum = 52 := by
        rw [sum_map_len_const h13, hinv.found_len]
      have hz : g.stock.length = 0 ∧ g.waste.length = 0 ∧
          (g.tableau.map List.length).sum = 0 := by
        omega
      refine ⟨List.length_eq_zero.mp hz.1, List.length_eq_zero.mp hz.2.1, ?_⟩
      intro p hp
      apply List.length_eq_zero.mp
      exact List.sum_eq_zero_iff.mp hz.2.2 p.length (List.mem_map_of_mem List.length hp)
    · rintro ⟨hst, hwa, hta⟩
      obtain ⟨f0, f1, f2, f3, hfoundeq⟩ := length_eq_four hinv.found_len
      have htasum : (g.tableau.map List.length).sum = 0 := by
        apply List.sum_eq_zero_iff.mpr
        intro x hx
        obtain ⟨p, hp, rfl⟩ := List.mem_map.mp hx
        rw [hta p hp]
        rfl
      have hb0 : f0.length ≤ 13 :=
        foundationAsc_le13 (hinv.found_asc f0 (by rw [hfoundeq]; simp))
      have hb1 : f1.length ≤ 13 :=
        foundationAsc_le13 (hinv.found_asc f1 (by rw [hfoundeq]; simp))
      have hb2 : f2.length ≤ 13 :=
        foundationAsc_le13 (hinv.found_asc f2 (by rw [hfoundeq]; simp))
      have hb3 : f3.length ≤ 13 :=
        foundationAsc_le13 (hinv.found_asc f3 (by rw [hfoundeq]; simp))
      have hsl : g.stock.length = 0 := by
        rw [hst]
        rfl
      have hwl : g.waste.length = 0 := by
        rw [hwa]
        rfl
      rw [hfoundeq] at hcard
      simp only [List.map_cons, List.map_nil, List.sum_cons, List.sum_nil] at hcard
      intro p hp
      rw [hfoundeq] at hp
      have hp' : p = f0 ∨ p = f1 ∨ p = f2 ∨ p = f3 := by simpa using hp
      rcases hp' with rfl | rfl | rfl | rfl <;> omega
  exact ⟨hfirst, hsecond, fun deck => rfl⟩

/-- Witness for C8: the fresh deal of the unshuffled deck is not won. -/
theorem c8_witness : (SolitaireGame.initialize_deck fullDeck).is_won = false :=
  (c8_is_won _ (Reachable.init fullDeck (List.Perm.refl _))).2.2 fullDeck

lemma upIdsOf_split {l : List Card} {c : Card} (h : l.getLast? = some c) :
    upIdsOf l = upIdsOf l.dropLast + upIdsOf [c] := by
  conv_lhs => rw [← dropLast_concat_eq h]
  rw [upIdsOf_append]

lemma upIdsOf_le_up (c : Card) : upIdsOf [c] ≤ upIdsOf [{ c with face_up := true }] := by
  by_cases hc : c.face_up
  · have he : ({ c with face_up := true } : Card) = c := by
      obtain ⟨s, r, u⟩ := c
      simp only at hc
      subst hc
      rfl
    rw [he]
  · have h0 : upIdsOf [c] = 0 := by
      simp [upIdsOf, List.filter_cons, hc]
    rw [h0]
    exact zero_le _

lemma upIdsOf_take_drop (ci : Nat) (pile : List Card) :
    upIdsOf pile = upIdsOf (pile.take ci) + upIdsOf (pile.drop ci) := by
  conv_lhs => rw [← List.take_append_drop ci pile]
  rw [upIdsOf_append]

lemma faceUp_mono_draw (g : SolitaireGame) (hs : g.stock ≠ []) :
    faceUpCards g ≤ faceUpCards g.draw_from_stock := by
  rcases g.stock.eq_nil_or_concat with h | ⟨ys, c, h⟩
  · exact absurd h hs
  · rw [List.concat_eq_append] at h
    rw [draw_concat g ys c h]
    have e1 : faceUpCards g =
        (upIdsOf ys + upIdsOf g.waste + (g.foundations.map upIdsOf).sum +
          (g.tableau.map upIdsOf).sum) + upIdsOf [c] := by
      unfold faceUpCards
      rw [h, upIdsOf_append]
      abel
    have e2 : faceUpCards
        { g with
          stock := ys,
          waste := g.waste ++ [{ c with face_up := true }],
          moves := g.moves + 1 } =
        (upIdsOf ys + upIdsOf g.waste + (g.foundations.map upIdsOf).sum +
          (g.tableau.map upIdsOf).sum) + upIdsOf [{ c with face_up := true }] := by
      show upIdsOf ys + upIdsOf (g.waste ++ [{ c with face_up := true }]) +
          (g.foundations.map upIdsOf).sum + (g.tableau.map upIdsOf).sum = _
      rw [upIdsOf_append]
      abel
    rw [e1, e2]
    exact add_le_add_left (upIdsOf_le_up c) _

lemma faceUp_mono_tableau (g : SolitaireGame) (hg : GameInv g) (s : Src) (t ci : Nat)
    (r : Bool × SolitaireGame) (h : g.move_to_tableau s t ci = some r) :
    faceUpCards g ≤ faceUpCards r.2 := by
  match s with
  | Src.waste =>
    rcases move_to_tableau_waste_cases g t ci r h with rfl | ⟨card, target, hw, htgt, hacc, rfl⟩
    · exact le_refl _
    · have hltT : t < g.tableau.length := (List.get?_eq_some.mp htgt).1
      have eS := mapSum_set upIdsOf g.tableau t (target ++ [card]) hltT
      rw [getD_of_get? htgt, upIdsOf_append] at eS
      have hS : ((g.tableau.set t (target ++ [card])).map upIdsOf).sum =
          (g.tableau.map upIdsOf).sum + upIdsOf [card] := by
        have e2 : ((g.tableau.set t (target ++ [card])).map upIdsOf).sum + upIdsOf target =
            ((g.tableau.map upIdsOf).sum + upIdsOf [card]) + upIdsOf target := by
          rw [eS]
          abel
        exact add_right_cancel e2
      have e1 : faceUpCards g =
          (upIdsOf g.stock + (g.foundations.map upIdsOf).sum +
            (g.tableau.map upIdsOf).sum + upIdsOf [card]) + upIdsOf g.waste.dropLast := by
        unfold faceUpCards
        rw [upIdsOf_split hw]
        abel
      have e2 : faceUpCards
          { g with
            tableau := g.tableau.set t (target ++ [card]),
            waste := flipTop g.waste.dropLast,
            moves := g.moves + 1 } =
          (upIdsOf g.stock + (g.foundations.map upIdsOf).sum +
            (g.tableau.map upIdsOf).sum + upIdsOf [card]) +
            upIdsOf (flipTop g.waste.dropLast) := by
        show upIdsOf g.stock + upIdsOf (flipTop g.waste.dropLast) +
            (g.foundations.map upIdsOf).sum +
            ((g.tableau.set t (target ++ [card])).map upIdsOf).sum = _
        rw [hS]
        abel
      rw [e1, e2]
      exact add_le_add_left (flipTop_upIds_le _) _
  | Src.tableau f =>
    rcases move_to_tableau_tab_cases g f t ci r h with
      rfl | ⟨pile, target, hci, h7, hpile, htgt, hup, hacc, rfl⟩
    · exact le_refl _
    · by_cases hft : f = t
      · subst hft
        rw [hpile] at htgt
        obtain rfl : pile = target := Option.some.inj htgt
        have hdead := no_self_place (hg.tab_ok pile (List.get?_mem hpile)) hci hup
        rw [hdead] at hacc
        cases hacc
      · have hltT : t < g.tableau.length := (List.get?_eq_some.mp htgt).1
        have hltF : f < g.tableau.length := (List.get?_eq_some.mp hpile).1
        have hT1f : (g.tableau.set t (target ++ pile.drop ci)).getD f [] = pile := by
          apply getD_of_get?
          rw [List.get?_set_ne _ _ (fun hh => hft hh.symm)]
          exact hpile
        rw [hT1f]
        have eS := mapSum_set upIdsOf g.tableau t (target ++ pile.drop ci) hltT
        rw [getD_of_get? htgt, upIdsOf_append] at eS
        have hS1 : ((g.tableau.set t (target ++ pile.drop ci)).map upIdsOf).sum =
            (g.tableau.map upIdsOf).sum + upIdsOf (pile.drop ci) := by
          have e2 : ((g.tableau.set t (target ++ pile.drop ci)).map upIdsOf).sum +
              upIdsOf target =
              ((g.tableau.map upIdsOf).sum + upIdsOf (pile.drop ci)) + upIdsOf target := by
            rw [eS]
            abel
          exact add_right_cancel e2
        have hltF2 : f < (g.tableau.set t (target ++ pile.drop ci)).length := by
          rw [List.length_set]
          exact hltF
        have e1 := mapSum_set upIdsOf (g.tableau.set t (target ++ pile.drop ci)) f
          (flipTop (pile.take ci)) hltF2
        rw [hT1f] at e1
        have key : (((g.tableau.set t (target ++ pile.drop ci)).set f
            (flipTop (pile.take ci))).map upIdsOf).sum + upIdsOf (pile.take ci) =
            (g.tableau.map upIdsOf).sum + upIdsOf (flipTop (pile.take ci)) := by
          have e3 : (((g.tableau.set t (target ++ pile.drop ci)).set f
              (flipTop (pile.take ci))).map upIdsOf).sum + upIdsOf (pile.take ci) +
              upIdsOf (pile.drop ci) =
              (g.tableau.map upIdsOf).sum + upIdsOf (flipTop (pile.take ci)) +
              upIdsOf (pile.drop ci) := by
            calc (((g.tableau.set t (target ++ pile.drop ci)).set f
                  (flipTop (pile.take ci))).map upIdsOf).sum + upIdsOf (pile.take ci) +
                  upIdsOf (pile.drop ci)
                = (((g.tableau.set t (target ++ pile.drop ci)).set f
                    (flipTop (pile.take ci))).map upIdsOf).sum + upIdsOf pile := by
                  rw [upIdsOf_take_drop ci pile]
                  abel
              _ = ((g.tableau.set t (target ++ pile.drop ci)).map upIdsOf).sum +
                    upIdsOf (flipTop (pile.take ci)) := e1
              _ = (g.tableau.map upIdsOf).sum + upIdsOf (pile.drop ci) +
                    upIdsOf (flipTop (pile.take ci)) := by rw [hS1]
              _ = (g.tableau.map upIdsOf).sum + upIdsOf (flipTop (pile.take ci)) +
                    upIdsOf (pile.drop ci) := by abel
          exact add_right_cancel e3
        have hle : (g.tableau.map upIdsOf).sum ≤
            (((g.tableau.set t (target ++ pile.drop ci)).set f
              (flipTop (pile.take ci))).map upIdsOf).sum := by
          have hstep : (g.tableau.map upIdsOf).sum + upIdsOf (pile.take ci) ≤
              (((g.tableau.set t (target ++ pile.drop ci)).set f
                (flipTop (pile.take ci))).map upIdsOf).sum + upIdsOf (pile.take ci) := by
            rw [key]
            exact add_le_add_left (flipTop_upIds_le _) _
          exact le_of_add_le_add_right hstep
        have e1g : faceUpCards g =
            (upIdsOf g.stock + upIdsOf g.waste + (g.foundations.map upIdsOf).sum) +
              (g.tableau.map upIdsOf).sum := by
          unfold faceUpCards
          abel
        have e2g : faceUpCards
            { g with
              tableau := (g.tableau.set t (target ++ pile.drop ci)).set f
                (flipTop (pile.take ci)),
              moves := g.moves + 1 } =
            (upIdsOf g.stock + upIdsOf g.waste + (g.foundations.map upIdsOf).sum) +
              (((g.tableau.set t (target ++ pile.drop ci)).set f
                (flipTop (pile.take ci))).map upIdsOf).sum := by
          show upIdsOf g.stock + upIdsOf g.waste + (g.foundations.map upIdsOf).sum +
              (((g.tableau.set t (target ++ pile.drop ci)).set f
                (flipTop (pile.take ci))).map upIdsOf).sum = _
          abel
        rw [e1g, e2g]
        exact add_le_add_left hle _

lemma faceUp_mono_foundation (g : SolitaireGame) (s : Src) (fi : Nat)
    (r : Bool × SolitaireGame) (h : g.move_to_foundation s fi = some r) :
    faceUpCards g ≤ faceUpCards r.2 := by
  match s with
  | Src.waste =>
    rcases move_to_foundation_waste_cases g fi r h with rfl | ⟨wtop, hw, hcm, rfl⟩
    · exact le_refl _
    · obtain ⟨fD, hfD, -⟩ := can_move_true hcm
      have hltF : fi < g.foundations.length := (List.get?_eq_some.mp hfD).1
      rw [getD_of_get? hfD]
      have eF := mapSum_set upIdsOf g.foundations fi (fD ++ [wtop]) hltF
      rw [getD_of_get? hfD, upIdsOf_append] at eF
      have hSF : ((g.foundations.set fi (fD ++ [wtop])).map upIdsOf).sum =
          (g.foundations.map upIdsOf).sum + upIdsOf [wtop] := by
        have e2 : ((g.foundations.set fi (fD ++ [wtop])).map upIdsOf).sum + upIdsOf fD =
            ((g.foundations.map upIdsOf).sum + upIdsOf [wtop]) + upIdsOf fD := by
          rw [eF]
          abel
        exact add_right_cancel e2
      apply le_of_eq
      have e1 : faceUpCards g =
          upIdsOf g.stock + (upIdsOf g.waste.dropLast + upIdsOf [wtop]) +
            (g.foundations.map upIdsOf).sum + (g.tableau.map upIdsOf).sum := by
        unfold faceUpCards
        rw [upIdsOf_split hw]
      have e2 : faceUpCards
          { g with
            waste := g.waste.dropLast,
            foundations := g.foundations.set fi (fD ++ [wtop]),
            moves := g.moves + 1 } =
          upIdsOf g.stock + upIdsOf g.waste.dropLast +
            ((g.foundations.map upIdsOf).sum + upIdsOf [wtop]) +
            (g.tableau.map upIdsOf).sum := by
        show upIdsOf g.stock + upIdsOf g.waste.dropLast +
            ((g.foundations.set fi (fD ++ [wtop])).map upIdsOf).sum +
            (g.tableau.map upIdsOf).sum = _
        rw [hSF]
      rw [e1, e2]
      abel
  | Src.tableau i =>
    rcases move_to_foundation_tab_cases g i fi r h with
      rfl | ⟨pile, ptop, h7, hpile, hptop, hup, hcm, rfl⟩
    · exact le_refl _
    · obtain ⟨fD, hfD, -⟩ := can_move_true hcm
      have hltF : fi < g.foundations.length := (List.get?_eq_some.mp hfD).1
      have hltT : i < g.tableau.length := (List.get?_eq_some.mp hpile).1
      rw [getD_of_get? hfD]
      have eF := mapSum_set upIdsOf g.foundations fi (fD ++ [ptop]) hltF
      rw [getD_of_get? hfD, upIdsOf_append] at eF
      have hSF : ((g.foundations.set fi (fD ++ [ptop])).map upIdsOf).sum =
          (g.foundations.map upIdsOf).sum + upIdsOf [ptop] := by
        have e2 : ((g.foundations.set fi (fD ++ [ptop])).map upIdsOf).sum + upIdsOf fD =
            ((g.foundations.map upIdsOf).sum + upIdsOf [ptop]) + upIdsOf fD := by
          rw [eF]
          abel
        exact add_right_cancel e2
      have eT := mapSum_set upIdsOf g.tableau i (flipTop pile.dropLast) hltT
      rw [getD_of_get? hpile] at eT
      have key : ((g.tableau.set i (flipTop pile.dropLast)).map upIdsOf).sum +
          upIdsOf [ptop] + upIdsOf pile.dropLast =
          (g.tableau.map upIdsOf).sum + upIdsOf (flipTop pile.dropLast) := by
        calc ((g.tableau.set i (flipTop pile.dropLast)).map upIdsOf).sum +
              upIdsOf [ptop] + upIdsOf pile.dropLast
            = ((g.tableau.set i (flipTop pile.dropLast)).map upIdsOf).sum +
                upIdsOf pile := by
              rw [upIdsOf_split hptop]
              abel
          _ = (g.tableau.map upIdsOf).sum + upIdsOf (flipTop pile.dropLast) := eT
      have hle : (g.tableau.map upIdsOf).sum ≤
          ((g.tableau.set i (flipTop pile.dropLast)).map upIdsOf).sum + upIdsOf [ptop] := by
        have hstep : (g.tableau.map upIdsOf).sum + upIdsOf pile.dropLast ≤
            ((g.tableau.set i (flipTop pile.dropLast)).map upIdsOf).sum +
              upIdsOf [ptop] + upIdsOf pile.dropLast := by
          rw [key]
          exact add_le_add_left (flipTop_upIds_le _) _
        exact le_of_add_le_add_right hstep
      have e1g : faceUpCards g =
          (upIdsOf g.stock + upIdsOf g.waste + (g.foundations.map upIdsOf).sum) +
            (g.tableau.map upIdsOf).sum := by
        unfold faceUpCards
        abel
      have e2g : faceUpCards
          { g with
            tableau := g.tableau.set i (flipTop pile.dropLast),
            foundations := g.foundations.set fi (fD ++ [ptop]),
            moves := g.moves + 1 } =
          (upIdsOf g.stock + upIdsOf g.waste + (g.foundations.map upIdsOf).sum) +
            (((g.tableau.set i (flipTop pile.dropLast)).map upIdsOf).sum +
              upIdsOf [ptop]) := by
        show upIdsOf g.stock + upIdsOf g.waste +
            ((g.foundations.set fi (fD ++ [ptop])).map upIdsOf).sum +
            ((g.tableau.set i (flipTop pile.dropLast)).map upIdsOf).sum = _
        rw [hSF]
        abel
      rw [e1g, e2g]
      exact add_le_add_left hle _

lemma faceUp_mono_flip (g : SolitaireGame) (i : Nat) :
    faceUpCards g ≤ faceUpCards (g.flip_tableau_top i) := by
  unfold SolitaireGame.flip_tableau_top
  split
  · exact le_refl _
  · rename_i pile hpile
    have hlt : i < g.tableau.length := (List.get?_eq_some.mp hpile).1
    have eT := mapSum_set upIdsOf g.tableau i (flipTop pile) hlt
    rw [getD_of_get? hpile] at eT
    have hle : (g.tableau.map upIdsOf).sum ≤
        ((g.tableau.set i (flipTop pile)).map upIdsOf).sum := by
      have hstep : (g.tableau.map upIdsOf).sum + upIdsOf pile ≤
          ((g.tableau.set i (flipTop pile)).map upIdsOf).sum + upIdsOf pile := by
        rw [eT]
        exact add_le_add_left (flipTop_upIds_le _) _
      exact le_of_add_le_add_right hstep
    have e1g : faceUpCards g =
        (upIdsOf g.stock + upIdsOf g.waste + (g.foundations.map upIdsOf).sum) +
          (g.tableau.map upIdsOf).sum := by
      unfold faceUpCards
      abel
    have e2g : faceUpCards { g with tableau := g.tableau.set i (flipTop pile) } =
        (upIdsOf g.stock + upIdsOf g.waste + (g.foundations.map upIdsOf).sum) +
          ((g.tableau.set i (flipTop pile)).map upIdsOf).sum := by
      show upIdsOf g.stock + upIdsOf g.waste + (g.foundations.map upIdsOf).sum +
          ((g.tableau.set i (flipTop pile)).map upIdsOf).sum = _
      abel
    rw [e1g, e2g]
    exact add_le_add_left hle _

/-- C9 (amended): once a card is face-up, no engine operation other than the
stock recycle (drawing on an empty stock, which turns every waste card
face-down while returning it to the stock) ever turns it face-down: outside
that single case the multiset of face-up card identities only grows. -/
theorem c9_face_up_monotone (g : SolitaireGame) (m : Move) (hg : Reachable g)
    (hnr : ¬(m = Move.draw ∧ g.stock = [])) :
    faceUpCards g ≤ faceUpCards (applyMove g m) ∧
    (∀ p : Suit × Rank, p ∈ faceUpCards g → p ∈ faceUpCards (applyMove g m)) := by
  have hmain : faceUpCards g ≤ faceUpCards (applyMove g m) := by
    match m with
    | Move.draw =>
      have hs : g.stock ≠ [] := fun he => hnr ⟨rfl, he⟩
      exact faceUp_mono_draw g hs
    | Move.toTableau s t ci =>
      simp only [applyMove]
      split
      · rename_i r hr
        exact faceUp_mono_tableau g (reachable_inv hg) s t ci r hr
      · exact le_refl _
    | Move.toFoundation s fi =>
      simp only [applyMove]
      split
      · rename_i r hr
        exact faceUp_mono_foundation g s fi r hr
      · exact le_refl _
    | Move.flip i => exact faceUp_mono_flip g i
  exact ⟨hmain, fun p hp => Multiset.mem_of_le hmain hp⟩

/-- Whether the card with identity `p` lies face-up in the list `l`. -/
def faceUpIn (l : List Card) (p : Suit × Rank) : Bool :=
  l.any fun c => decide (cardId c = p) && c.face_up

/-- Whether the card with identity `p` lies face-up anywhere in the state. -/
def faceUpSomewhere (g : SolitaireGame) (p : Suit × Rank) : Bool :=
  faceUpIn g.stock p || faceUpIn g.waste p ||
    g.foundations.any (fun f => faceUpIn f p) || g.tableau.any (fun f => faceUpIn f p)

/-- The fresh deal of the unshuffled deck. -/
def cexG0 : SolitaireGame := SolitaireGame.initialize_deck fullDeck

/-- The state after drawing the full 24-card stock of that deal: the stock is
empty and the waste holds 24 face-up cards. -/
def cexG1 : SolitaireGame := (fun g => applyMove g Move.draw)^[24] cexG0

/-- Counterexample to C9 as stated: in the reachable state `cexG1` the jack of
hearts is face-up (in the waste), and the next draw — the recycle — leaves it
face-down: a face-up card returns to face-down under an engine operation. -/
theorem c9_counterexample :
    Reachable cexG1 ∧
    faceUpSomewhere cexG1 (Suit.heart, Rank.jack) = true ∧
    faceUpSomewhere (applyMove cexG1 Move.draw) (Suit.heart, Rank.jack) = false := by
  refine ⟨?_, by decide, by decide⟩
  have hstep : ∀ (n : Nat) (g : SolitaireGame), Reachable g →
      Reachable ((fun g => applyMove g Move.draw)^[n] g) := by
    intro n
    induction n with
    | zero =>
      intro g hg
      exact hg
    | succ k ih =>
      intro g hg
      rw [Function.iterate_succ_apply]
      exact ih _ (Reachable.step g Move.draw hg)
  exact hstep 24 cexG0 (Reachable.init fullDeck (List.Perm.refl _))

/-- Witness for the amended C9 on a concrete non-recycle operation. -/
theorem c9_witness :
    faceUpCards cexG0 ≤ faceUpCards (applyMove cexG0 (Move.flip 0)) :=
  (c9_face_up_monotone cexG0 (Move.flip 0) (Reachable.init fullDeck (List.Perm.refl _))
    (fun hcon => Move.noConfusion hcon.1)).1
